import Mathlib

/-!
Verification of the round lifecycle and settlement engine of the shorts
trading client.

The TypeScript source is shallowly embedded in Lean.  JavaScript numbers are
modelled as exact rationals, so arithmetic such as Math.round, division and
multiplication is exact; fields of type number-or-null are modelled as
Option; module scope mutable refs become explicit state records and the
timer callbacks become pure state transition functions.

Two engine variants exist in the repository and both are embedded:
the quote market variant of app/index.tsx lives in namespace QuoteMarket,
and the fixed rate, lock window variant (the second HomeScreen document
stored alongside AssetDisplay.tsx) lives in namespace FixedRate.

Math.pow with the fractional exponents 2.6 and 1.6 is a transcendental real
operation with no exact rational counterpart, so the quote probability
module is parametrised over the two power maps; every theorem that needs a
property of them (range or monotonicity on the unit interval) takes that
property as an explicit hypothesis.
-/

inductive Direction : Type
  | up
  | down
deriving DecidableEq, Repr

inductive PositionStatus : Type
  | win
  | loss
  | push
deriving DecidableEq, Repr

inductive FeedStatus : Type
  | connecting
  | live
  | offline
deriving DecidableEq, Repr

/-- Constants from src/constants/shorts.ts. -/
def TOKEN_TO_USDC_RATE : ℚ := 100

def SHORTS_PAYOUT_RATE : ℚ := 9 / 10

def ROUND_LOCK_WINDOW_MS : ℚ := 3000

/-- Constants from app/index.tsx. -/
def DEFAULT_BET_AMOUNT : ℚ := 50

def MIN_CONTRACT_CENTS : ℤ := 15

def MAX_ACTIVITY_ITEMS : ℕ := 10

/-- JavaScript Math.round: round half toward positive infinity. -/
def jsRound (x : ℚ) : ℤ := ⌊x + 1 / 2⌋

/-- roundToTwo from the source: Math.round(value * 100) / 100. -/
def roundToTwo (value : ℚ) : ℚ := jsRound (value * 100) / 100

/-- roundToFour from the source: Math.round(value * 10000) / 10000. -/
def roundToFour (value : ℚ) : ℚ := jsRound (value * 10000) / 10000

/-- clamp from the source: Math.min(max, Math.max(min, value)). -/
def clamp (value lo hi : ℚ) : ℚ := min hi (max lo value)

/-- Number.EPSILON of JavaScript, two to the power minus fifty two. -/
def NumberEPSILON : ℚ := 1 / 2 ^ 52

/-! ## Quote probability module (utils/quoteProbability, stored alongside
app/_layout.tsx). -/

def QUOTE_SENSITIVITY : ℚ := 1000

def QUOTE_URGENCY_MIN : ℚ := 6 / 10

def QUOTE_URGENCY_MAX : ℚ := 3

def EARLY_MIN_PROBABILITY : ℚ := 2 / 10

def EARLY_MAX_PROBABILITY : ℚ := 8 / 10

def FINAL_MIN_PROBABILITY : ℚ := 15 / 100

def FINAL_MAX_PROBABILITY : ℚ := 85 / 100

def BOUNDS_RELEASE_WINDOW_MS : ℚ := 5000

/-- getQuoteUrgency from the source.  The map powUrgency stands for
Math.pow(x, QUOTE_URGENCY_POWER) with QUOTE_URGENCY_POWER = 2.6. -/
def getQuoteUrgency (powUrgency : ℚ → ℚ) (roundProgress : ℚ) : ℚ :=
  let normalizedProgress := clamp roundProgress 0 1
  let easedProgress := powUrgency normalizedProgress
  QUOTE_URGENCY_MIN + (QUOTE_URGENCY_MAX - QUOTE_URGENCY_MIN) * easedProgress

/-- The progress at which the probability bounds start to widen, from
getProbabilityBounds in the source. -/
def boundsReleaseStart (roundDurationMs : ℚ) : ℚ :=
  let releaseWindowMs := max BOUNDS_RELEASE_WINDOW_MS ROUND_LOCK_WINDOW_MS
  let safeDurationMs := max roundDurationMs releaseWindowMs
  clamp (1 - releaseWindowMs / safeDurationMs) 0 1

/-- getProbabilityBounds from the source, returning (min, max).  The map
powRelease stands for Math.pow(x, BOUNDS_RELEASE_POWER) with
BOUNDS_RELEASE_POWER = 1.6. -/
def getProbabilityBounds (powRelease : ℚ → ℚ) (roundProgress roundDurationMs : ℚ) :
    ℚ × ℚ :=
  let normalizedProgress := clamp roundProgress 0 1
  let startProgress := boundsReleaseStart roundDurationMs
  if normalizedProgress ≤ startProgress then
    (EARLY_MIN_PROBABILITY, EARLY_MAX_PROBABILITY)
  else
    let normalizedLateProgress :=
      clamp ((normalizedProgress - startProgress) /
        max (1 - startProgress) NumberEPSILON) 0 1
    let lateProgress := powRelease normalizedLateProgress
    (EARLY_MIN_PROBABILITY +
        (FINAL_MIN_PROBABILITY - EARLY_MIN_PROBABILITY) * lateProgress,
      EARLY_MAX_PROBABILITY +
        (FINAL_MAX_PROBABILITY - EARLY_MAX_PROBABILITY) * lateProgress)

/-- getUpProbability from the source.  Null prices are modelled as none;
the noise parameter defaults to zero at every call site in the engine. -/
def getUpProbability (powUrgency powRelease : ℚ → ℚ)
    (openPrice latestPrice : Option ℚ)
    (roundProgress roundDurationMs noise : ℚ) : ℚ :=
  match openPrice, latestPrice with
  | some op, some lp =>
    if op ≤ 0 then 1 / 2
    else
      let pctChange := (lp - op) / op
      let urgency := getQuoteUrgency powUrgency roundProgress
      let signal := pctChange * QUOTE_SENSITIVITY * urgency
      let bounds := getProbabilityBounds powRelease roundProgress roundDurationMs
      clamp (1 / 2 + signal + noise) bounds.1 bounds.2
  | _, _ => 1 / 2

/-- getContractQuotes from app/index.tsx, returning (up, down) in dollars.
The stake and asset arguments of the source are unused there and omitted
here; noise is passed as zero by omission in the source. -/
def getContractQuotes (powUrgency powRelease : ℚ → ℚ)
    (openPrice latestPrice : Option ℚ) (roundProgress roundDurationMs : ℚ) :
    ℚ × ℚ :=
  let upProbability :=
    getUpProbability powUrgency powRelease openPrice latestPrice
      roundProgress roundDurationMs 0
  let upCents : ℤ :=
    min (100 - MIN_CONTRACT_CENTS) (max MIN_CONTRACT_CENTS (jsRound (upProbability * 100)))
  let downCents : ℤ := 100 - upCents
  ((upCents : ℚ) / 100, (downCents : ℚ) / 100)

/-! ## Shared settlement event plumbing. -/

structure SettlementEvent : Type where
  roundId : String
  settlePrice : ℚ
deriving DecidableEq, Repr

structure PendingSettlement : Type where
  roundId : String
  asset : String
deriving DecidableEq, Repr

/-- Lookup in the Map built by resolveRounds from its events list: the map is
filled with Map.set in list order, so the last event with a given round id
wins. -/
def settlePriceFor (events : List SettlementEvent) (roundId : String) : Option ℚ :=
  match events with
  | [] => none
  | e :: rest =>
    match settlePriceFor rest roundId with
    | some sp => some sp
    | none => if e.roundId = roundId then some e.settlePrice else none

/-- The tick handler merges newly detected ended rounds into the pending
settlement queue through a seen set keyed by round id (app/index.tsx lines
614 to 630 and the identical block of the fixed rate variant). -/
def mergeSettlements (pending newItems : List PendingSettlement) :
    List PendingSettlement :=
  (newItems.foldl
    (fun (acc : List PendingSettlement × List String) item =>
      if item.roundId ∈ acc.2 then acc
      else (acc.1 ++ [item], item.roundId :: acc.2))
    (pending, pending.map (·.roundId))).1

/-- Pending settlement queue states reachable by the engine: the queue starts
empty, ticks merge new items through the seen set, and draining keeps
exactly the items whose oracle price is still missing. -/
inductive PendingReachable : List PendingSettlement → Prop
  | init : PendingReachable []
  | enqueue (pending newItems : List PendingSettlement) :
      PendingReachable pending →
      PendingReachable (mergeSettlements pending newItems)
  | drain (pending : List PendingSettlement) (oracle : String → Option ℚ) :
      PendingReachable pending →
      PendingReachable (pending.filter (fun item => (oracle item.asset).isNone))

/-! ## Quote market engine variant (app/index.tsx). -/

namespace QuoteMarket

structure MarketRound : Type where
  id : String
  marketKey : String
  startTime : ℚ
  endTime : ℚ
  openPrice : Option ℚ
deriving DecidableEq, Repr

structure OpenPosition : Type where
  id : String
  marketKey : String
  roundId : String
  direction : Direction
  amount : ℚ
  createdAt : ℚ
  roundEndTime : ℚ
  entryPrice : ℚ
  entryQuote : ℚ
  shares : ℚ
deriving DecidableEq, Repr

/-- SettledPosition of the source spreads the open position and adds the
settlement fields; the spread part is kept as one field here. -/
structure SettledPosition : Type where
  position : OpenPosition
  status : PositionStatus
  settlePrice : ℚ
  profit : ℚ
  payout : ℚ
  resolvedAt : ℚ
deriving DecidableEq, Repr

structure MarketActivity : Type where
  id : String
  side : Direction
  amount : ℚ
  quote : ℚ
  createdAt : ℚ
  trader : String
  isUser : Bool
deriving DecidableEq, Repr

structure MarketBook : Type where
  roundId : String
  upStake : ℚ
  downStake : ℚ
  upPositions : ℕ
  downPositions : ℕ
  activity : List MarketActivity
deriving DecidableEq, Repr

structure Market : Type where
  key : String
  asset : String
  symbol : String
  durationSec : ℚ
  label : String
deriving DecidableEq, Repr

/-- SHORTS_MARKETS from src/constants/shorts.ts. -/
def SHORTS_MARKETS : List Market :=
  [⟨"BTC-30s", "BTC", "BTCUSDT", 30, "BTC 30s"⟩,
    ⟨"BTC-1m", "BTC", "BTCUSDT", 60, "BTC 1m"⟩,
    ⟨"ETH-30s", "ETH", "ETHUSDT", 30, "ETH 30s"⟩,
    ⟨"ETH-1m", "ETH", "ETHUSDT", 60, "ETH 1m"⟩]

/-- The engine state: the balance ledger, the open and settled position
lists, the pending settlement queue and the per market books.  These are
the module scope refs and React state cells of the source. -/
structure EngineState : Type where
  balance : ℚ
  openPositions : List OpenPosition
  settledPositions : List SettledPosition
  pendingSettlements : List PendingSettlement
  books : List (String × MarketBook)
deriving DecidableEq, Repr

def getRoundStart (timestamp durationMs : ℚ) : ℚ :=
  (⌊timestamp / durationMs⌋ : ℚ) * durationMs

/-- createRound from app/index.tsx. -/
def createRound (marketKey : String) (durationMs timestamp : ℚ)
    (openPrice : Option ℚ) : MarketRound :=
  let startTime := getRoundStart timestamp durationMs
  let endTime := startTime + durationMs
  { id := marketKey ++ "-" ++ toString startTime
    marketKey := marketKey
    startTime := startTime
    endTime := endTime
    openPrice := openPrice }

/-- The settlement of one open position against a settle price: the loop
body of resolveRounds in app/index.tsx. -/
def settleOne (settlePrice resolvedAt : ℚ) (p : OpenPosition) : SettledPosition :=
  let isWin : Bool :=
    match p.direction with
    | Direction.up => decide (p.entryPrice < settlePrice)
    | Direction.down => decide (settlePrice < p.entryPrice)
  let isPush : Bool := decide (settlePrice = p.entryPrice)
  let payout : ℚ :=
    if isPush then p.amount
    else if isWin then roundToTwo (p.shares * TOKEN_TO_USDC_RATE)
    else 0
  let profit := roundToTwo (payout - p.amount)
  { position := p
    status :=
      if isPush then PositionStatus.push
      else if isWin then PositionStatus.win
      else PositionStatus.loss
    settlePrice := settlePrice
    profit := profit
    payout := payout
    resolvedAt := resolvedAt }

/-- The resolved list built by the loop of resolveRounds: the positions
whose round id has a settlement event, in order, each settled. -/
def resolvedBatch (events : List SettlementEvent) (resolvedAt : ℚ)
    (positions : List OpenPosition) : List SettledPosition :=
  positions.filterMap fun p =>
    (settlePriceFor events p.roundId).map fun sp => settleOne sp resolvedAt p

/-- The stillOpen list built by the loop of resolveRounds: the positions
whose round id has no settlement event, in order. -/
def stillOpenAfter (events : List SettlementEvent)
    (positions : List OpenPosition) : List OpenPosition :=
  positions.filter fun p => (settlePriceFor events p.roundId).isNone

/-- resolveRounds from app/index.tsx.  The settled list is sorted by
resolvedAt descending (a stable JavaScript sort), prepended to the previous
settled list and capped at forty entries; the payout total is credited to
the balance as one update. -/
def resolveRounds (events : List SettlementEvent) (resolvedAt : ℚ)
    (s : EngineState) : EngineState :=
  if events = [] then s
  else
    let resolved := resolvedBatch events resolvedAt s.openPositions
    if resolved = [] then s
    else
      { s with
        openPositions := stillOpenAfter events s.openPositions
        balance := s.balance + (resolved.map (·.payout)).sum
        settledPositions :=
          ((resolved.mergeSort fun a b => decide (b.resolvedAt ≤ a.resolvedAt)) ++
            s.settledPositions).take 40 }

/-- The items kept in the queue by processPendingSettlements: those whose
oracle price is still missing.  The oracle maps an asset code to the latest
known price (the source reads latestPricesRef at the symbol of
MARKET_BY_ASSET of the asset; that composition is the oracle map here). -/
def stillPendingAfter (oracle : String → Option ℚ)
    (pending : List PendingSettlement) : List PendingSettlement :=
  pending.filter fun item => (oracle item.asset).isNone

/-- The settlement events built by processPendingSettlements from the queue
items whose oracle price is available. -/
def toResolveEvents (oracle : String → Option ℚ)
    (pending : List PendingSettlement) : List SettlementEvent :=
  pending.filterMap fun item =>
    (oracle item.asset).map fun sp => { roundId := item.roundId, settlePrice := sp }

/-- processPendingSettlements from app/index.tsx. -/
def processPendingSettlements (oracle : String → Option ℚ) (resolvedAt : ℚ)
    (s : EngineState) : EngineState :=
  if s.pendingSettlements = [] then s
  else
    let toResolve := toResolveEvents oracle s.pendingSettlements
    let s1 := { s with pendingSettlements := stillPendingAfter oracle s.pendingSettlements }
    if toResolve = [] then s1
    else resolveRounds toResolve resolvedAt s1

/-- getCurrentRoundUserPositionCounts from app/index.tsx, read at one market
key: the number of open positions belonging to the current round of that
market. -/
def countCurrentRoundPositions (positions : List OpenPosition)
    (rounds : String → Option MarketRound) (key : String) : ℕ :=
  (positions.filter fun p =>
    p.marketKey == key && (rounds p.marketKey).map (·.id) == some p.roundId).length

/-- shouldPrioritizeOtherMarkets from app/index.tsx. -/
def shouldPrioritizeOtherMarkets (markets : List Market)
    (positions : List OpenPosition) (rounds : String → Option MarketRound)
    (nowMs : ℚ) (marketKey : String) : Bool :=
  if countCurrentRoundPositions positions rounds marketKey = 0 then false
  else
    markets.any fun m =>
      m.key != marketKey &&
      (match rounds m.key with
        | some round => round.openPrice.isSome && decide (nowMs < round.endTime)
        | none => false) &&
      countCurrentRoundPositions positions rounds m.key == 0

/-- The guard chain of placePosition in app/index.tsx: none when the bet is
rejected, some position when it is accepted.  The random id suffix of the
source is passed in as idSuffix. -/
def placeDecision (markets : List Market) (priceFeedStatus : FeedStatus)
    (rounds : String → Option MarketRound) (nowMs : ℚ) (marketKey : String)
    (direction : Direction) (entryQuote : ℚ) (idSuffix : String)
    (s : EngineState) : Option OpenPosition :=
  if priceFeedStatus ≠ FeedStatus.live then none
  else
    let amount := DEFAULT_BET_AMOUNT
    if ¬(0 < entryQuote ∧ entryQuote < 1) then none
    else
      match rounds marketKey with
      | none => none
      | some activeRound =>
        match activeRound.openPrice with
        | none => none
        | some openPrice =>
          if activeRound.endTime ≤ nowMs then none
          else if s.balance < amount then none
          else
            let spendUsd := amount / TOKEN_TO_USDC_RATE
            let shares := roundToFour (spendUsd / entryQuote)
            if shares ≤ 0 then none
            else if 0 < countCurrentRoundPositions s.openPositions rounds marketKey ∧
                shouldPrioritizeOtherMarkets markets s.openPositions rounds nowMs marketKey then
              none
            else
              some
                { id := activeRound.id ++ "-" ++ toString nowMs ++ "-" ++ idSuffix
                  marketKey := marketKey
                  roundId := activeRound.id
                  direction := direction
                  amount := amount
                  createdAt := nowMs
                  roundEndTime := activeRound.endTime
                  entryPrice := openPrice
                  entryQuote := entryQuote
                  shares := shares }

/-- The market book update of a successful placement: unchanged when the
book entry is missing or tracks another round, otherwise stakes, counts and
the capped activity log are updated. -/
def booksAfterPlace (books : List (String × MarketBook)) (marketKey : String)
    (roundId : String) (direction : Direction) (amount entryQuote nowMs : ℚ)
    (activityId : String) : List (String × MarketBook) :=
  books.map fun kb =>
    if kb.1 = marketKey ∧ kb.2.roundId = roundId then
      (kb.1,
        { kb.2 with
          upStake := kb.2.upStake + (if direction = Direction.up then amount else 0)
          downStake := kb.2.downStake + (if direction = Direction.down then amount else 0)
          upPositions := kb.2.upPositions + (if direction = Direction.up then 1 else 0)
          downPositions := kb.2.downPositions + (if direction = Direction.down then 1 else 0)
          activity :=
            ({ id := activityId
               side := direction
               amount := amount
               quote := entryQuote
               createdAt := nowMs
               trader := "You"
               isUser := true } :: kb.2.activity).take MAX_ACTIVITY_ITEMS })
    else kb

/-- placePosition from app/index.tsx.  On rejection the state is returned
untouched; on success the stake is debited, the position is prepended to
the open list capped at 120 entries, and the market book is updated.  The
card carousel scrolling of the source is display only and not modelled. -/
def placePosition (markets : List Market) (priceFeedStatus : FeedStatus)
    (rounds : String → Option MarketRound) (nowMs : ℚ) (marketKey : String)
    (direction : Direction) (entryQuote : ℚ) (idSuffix activityId : String)
    (s : EngineState) : EngineState :=
  match placeDecision markets priceFeedStatus rounds nowMs marketKey direction
      entryQuote idSuffix s with
  | none => s
  | some newPosition =>
    { s with
      balance := s.balance - newPosition.amount
      openPositions := (newPosition :: s.openPositions).take 120
      books :=
        booksAfterPlace s.books marketKey newPosition.roundId direction
          newPosition.amount entryQuote nowMs activityId }

/-- One user or timer driven engine operation, for stating conservation over
a whole run. -/
inductive EngineOp : Type
  | place (priceFeedStatus : FeedStatus) (rounds : String → Option MarketRound)
      (nowMs : ℚ) (marketKey : String) (direction : Direction)
      (entryQuote : ℚ) (idSuffix activityId : String)
  | settle (events : List SettlementEvent) (resolvedAt : ℚ)

def applyOp (op : EngineOp) (s : EngineState) : EngineState :=
  match op with
  | EngineOp.place f r n k d q suffix actId =>
    placePosition SHORTS_MARKETS f r n k d q suffix actId s
  | EngineOp.settle events t => resolveRounds events t s

def runOps : List EngineOp → EngineState → EngineState
  | [], s => s
  | op :: rest, s => runOps rest (applyOp op s)

/-- The positions successfully created along a run, in order. -/
def placedOf : List EngineOp → EngineState → List OpenPosition
  | [], _ => []
  | op :: rest, s =>
    (match op with
      | EngineOp.place f r n k d q suffix _ =>
        (placeDecision SHORTS_MARKETS f r n k d q suffix s).toList
      | EngineOp.settle _ _ => []) ++ placedOf rest (applyOp op s)

/-- The positions settled along a run, in order, with their computed
payouts. -/
def resolvedOf : List EngineOp → EngineState → List SettledPosition
  | [], _ => []
  | op :: rest, s =>
    (match op with
      | EngineOp.place _ _ _ _ _ _ _ _ => []
      | EngineOp.settle events t => resolvedBatch events t s.openPositions) ++
      resolvedOf rest (applyOp op s)

/-- A run never hits the 120 entry cap of the open position list: every
successful placement happens with fewer than 120 open positions, so the
slice drops nothing. -/
def capSafe : List EngineOp → EngineState → Bool
  | [], _ => true
  | op :: rest, s =>
    (match op with
      | EngineOp.place f r n k d q suffix _ =>
        (placeDecision SHORTS_MARKETS f r n k d q suffix s).isNone ||
          decide (s.openPositions.length < 120)
      | EngineOp.settle _ _ => true) &&
      capSafe rest (applyOp op s)

end QuoteMarket

/-! ## Fixed rate, lock window engine variant (the second HomeScreen
document stored alongside AssetDisplay.tsx). -/

namespace FixedRate

structure MarketRound : Type where
  id : String
  marketKey : String
  startTime : ℚ
  endTime : ℚ
  lockTime : ℚ
  openPrice : Option ℚ
deriving DecidableEq, Repr

structure OpenPosition : Type where
  id : String
  marketKey : String
  roundId : String
  direction : Direction
  amount : ℚ
  createdAt : ℚ
  roundEndTime : ℚ
  entryPrice : ℚ
deriving DecidableEq, Repr

structure SettledPosition : Type where
  position : OpenPosition
  status : PositionStatus
  settlePrice : ℚ
  profit : ℚ
  payout : ℚ
  resolvedAt : ℚ
deriving DecidableEq, Repr

structure EngineState : Type where
  balance : ℚ
  openPositions : List OpenPosition
  settledPositions : List SettledPosition
  pendingSettlements : List PendingSettlement
deriving DecidableEq, Repr

def getRoundStart (timestamp durationMs : ℚ) : ℚ :=
  (⌊timestamp / durationMs⌋ : ℚ) * durationMs

/-- createRound of the fixed rate variant, which also derives a lock time. -/
def createRound (marketKey : String) (durationMs timestamp : ℚ)
    (openPrice : Option ℚ) : MarketRound :=
  let startTime := getRoundStart timestamp durationMs
  let endTime := startTime + durationMs
  { id := marketKey ++ "-" ++ toString startTime
    marketKey := marketKey
    startTime := startTime
    endTime := endTime
    lockTime := endTime - ROUND_LOCK_WINDOW_MS
    openPrice := openPrice }

/-- The settlement of one open position in the fixed rate variant: a win
pays the stake plus ninety percent, a push refunds the stake, a loss pays
zero. -/
def settleOne (settlePrice resolvedAt : ℚ) (p : OpenPosition) : SettledPosition :=
  let isWin : Bool :=
    match p.direction with
    | Direction.up => decide (p.entryPrice < settlePrice)
    | Direction.down => decide (settlePrice < p.entryPrice)
  let isPush : Bool := decide (settlePrice = p.entryPrice)
  let profit : ℚ := if isWin then roundToTwo (p.amount * SHORTS_PAYOUT_RATE) else 0
  let payout : ℚ :=
    if isPush then p.amount
    else if isWin then p.amount + profit
    else 0
  { position := p
    status :=
      if isPush then PositionStatus.push
      else if isWin then PositionStatus.win
      else PositionStatus.loss
    settlePrice := settlePrice
    profit := profit
    payout := payout
    resolvedAt := resolvedAt }

def resolvedBatch (events : List SettlementEvent) (resolvedAt : ℚ)
    (positions : List OpenPosition) : List SettledPosition :=
  positions.filterMap fun p =>
    (settlePriceFor events p.roundId).map fun sp => settleOne sp resolvedAt p

def stillOpenAfter (events : List SettlementEvent)
    (positions : List OpenPosition) : List OpenPosition :=
  positions.filter fun p => (settlePriceFor events p.roundId).isNone

/-- resolveRounds of the fixed rate variant: the open list is replaced by
the still open positions; when at least one position resolved, the payout
total is credited as one balance update and the settled log is prepended
and capped at forty entries. -/
def resolveRounds (events : List SettlementEvent) (resolvedAt : ℚ)
    (s : EngineState) : EngineState :=
  if events = [] then s
  else
    let resolved := resolvedBatch events resolvedAt s.openPositions
    let stillOpen := stillOpenAfter events s.openPositions
    if resolved = [] then { s with openPositions := stillOpen }
    else
      { s with
        openPositions := stillOpen
        balance := s.balance + (resolved.map (·.payout)).sum
        settledPositions :=
          ((resolved.mergeSort fun a b => decide (b.resolvedAt ≤ a.resolvedAt)) ++
            s.settledPositions).take 40 }

/-- processPendingSettlements of the fixed rate variant; its oracle is the
chainlink price per asset. -/
def processPendingSettlements (oracle : String → Option ℚ) (resolvedAt : ℚ)
    (s : EngineState) : EngineState :=
  if s.pendingSettlements = [] then s
  else
    let toResolve := s.pendingSettlements.filterMap fun item =>
      (oracle item.asset).map fun sp =>
        SettlementEvent.mk item.roundId sp
    let s1 := { s with
      pendingSettlements :=
        s.pendingSettlements.filter fun item => (oracle item.asset).isNone }
    if toResolve = [] then s1
    else resolveRounds toResolve resolvedAt s1

/-- placePosition of the fixed rate variant: rejected with no state change
unless both feeds are live, the round has a captured open price, the lock
time has not been reached and the balance covers the stake.  The stake is
the per market selected amount. -/
def placePosition (priceFeedStatus oracleStatus : FeedStatus)
    (rounds : String → Option MarketRound) (nowMs : ℚ) (marketKey : String)
    (direction : Direction) (amount : ℚ) (idSuffix : String)
    (s : EngineState) : EngineState :=
  if priceFeedStatus ≠ FeedStatus.live ∨ oracleStatus ≠ FeedStatus.live then s
  else
    match rounds marketKey with
    | none => s
    | some activeRound =>
      match activeRound.openPrice with
      | none => s
      | some openPrice =>
        if activeRound.lockTime ≤ nowMs then s
        else if s.balance < amount then s
        else
          { s with
            balance := s.balance - amount
            openPositions :=
              ({ id := activeRound.id ++ "-" ++ toString nowMs ++ "-" ++ idSuffix
                 marketKey := marketKey
                 roundId := activeRound.id
                 direction := direction
                 amount := amount
                 createdAt := nowMs
                 roundEndTime := activeRound.endTime
                 entryPrice := openPrice } :: s.openPositions).take 120 }

end FixedRate

/-! ## Helper lemmas. -/

theorem clamp_mem_of_le {v lo hi : ℚ} (h : lo ≤ hi) :
    lo ≤ clamp v lo hi ∧ clamp v lo hi ≤ hi := by
  unfold clamp
  constructor
  · exact le_min h (le_max_left lo v)
  · exact min_le_left hi _

theorem clamp_le_clamp {v w : ℚ} (lo hi : ℚ) (h : v ≤ w) :
    clamp v lo hi ≤ clamp w lo hi := by
  unfold clamp
  exact min_le_min le_rfl (max_le_max le_rfl h)

theorem settlePriceFor_eq_none_iff {events : List SettlementEvent} {rid : String} :
    settlePriceFor events rid = none ↔ ∀ e ∈ events, e.roundId ≠ rid := by
  induction events with
  | nil => simp [settlePriceFor]
  | cons e rest ih =>
    unfold settlePriceFor
    rcases h : settlePriceFor rest rid with _ | sp
    · simp only [h, List.mem_cons]
      constructor
      · intro hnone a ha
        rcases ha with rfl | ha
        · intro hid
          simp [hid] at hnone
        · exact (ih.mp h) a ha
      · intro hall
        simp [hall e (Or.inl rfl)]
    · simp only [List.mem_cons]
      constructor
      · intro hc
        cases hc
      · intro hall
        have hnone : settlePriceFor rest rid = none :=
          ih.mpr fun a ha => hall a (Or.inr ha)
        rw [h] at hnone
        cases hnone

theorem settlePriceFor_eq_none_of_forall {events : List SettlementEvent}
    {rid : String} (h : ∀ e ∈ events, e.roundId ≠ rid) :
    settlePriceFor events rid = none :=
  settlePriceFor_eq_none_iff.mpr h

/-! ## Claim C4: round derivation is a pure function on a duration aligned
grid. -/

/-- C4: for every marketKey, durationMs > 0 and timestamp, createRound
returns startTime equal to floor(now / durationMs) times durationMs (hence
an exact integer multiple of durationMs), endTime equal to startTime plus
durationMs, and id equal to the market key joined to the start time; two
invocations in the same duration bucket yield identical ids.  Both engine
variants are covered. -/
theorem c4_round_grid (marketKey : String) (durationMs now1 now2 : ℚ)
    (op1 op2 : Option ℚ) (hdur : 0 < durationMs) :
    (QuoteMarket.createRound marketKey durationMs now1 op1).startTime =
        (⌊now1 / durationMs⌋ : ℚ) * durationMs ∧
    (∃ k : ℤ, (QuoteMarket.createRound marketKey durationMs now1 op1).startTime =
        (k : ℚ) * durationMs) ∧
    (QuoteMarket.createRound marketKey durationMs now1 op1).endTime =
        (QuoteMarket.createRound marketKey durationMs now1 op1).startTime + durationMs ∧
    (QuoteMarket.createRound marketKey durationMs now1 op1).id =
        marketKey ++ "-" ++
          toString (QuoteMarket.createRound marketKey durationMs now1 op1).startTime ∧
    (⌊now1 / durationMs⌋ = ⌊now2 / durationMs⌋ →
        (QuoteMarket.createRound marketKey durationMs now2 op2).id =
          (QuoteMarket.createRound marketKey durationMs now1 op1).id) ∧
    (FixedRate.createRound marketKey durationMs now1 op1).startTime =
        (⌊now1 / durationMs⌋ : ℚ) * durationMs ∧
    (⌊now1 / durationMs⌋ = ⌊now2 / durationMs⌋ →
        (FixedRate.createRound marketKey durationMs now2 op2).id =
          (FixedRate.createRound marketKey durationMs now1 op1).id) := by
  refine ⟨rfl, ⟨⌊now1 / durationMs⌋, rfl⟩, rfl, rfl, ?_, rfl, ?_⟩
  · intro h
    simp only [QuoteMarket.createRound, QuoteMarket.getRoundStart, h]
  · intro h
    simp only [FixedRate.createRound, FixedRate.getRoundStart, h]

/-- Witness for C4 at marketKey BTC-30s, duration 30000 ms, timestamps 65000
and 70000 (same bucket). -/
theorem c4_round_grid_witness :
    (QuoteMarket.createRound "BTC-30s" 30000 70000 (some 1)).id =
      (QuoteMarket.createRound "BTC-30s" 30000 65000 none).id :=
  (c4_round_grid "BTC-30s" 30000 65000 70000 none (some 1) (by norm_num)).2.2.2.2.1
    (by norm_num)

/-! ## Claim C8: degenerate quote inputs yield exactly one half. -/

/-- C8: for every roundProgress, roundDurationMs and noise, if the open
price is null, or the latest price is null, or the open price is not
positive, then getUpProbability returns exactly one half (and, being a
total function, never throws). -/
theorem c8_degenerate_half (powUrgency powRelease : ℚ → ℚ)
    (openPrice latestPrice : Option ℚ) (roundProgress roundDurationMs noise : ℚ)
    (h : openPrice = none ∨ latestPrice = none ∨
      ∃ p, openPrice = some p ∧ p ≤ 0) :
    getUpProbability powUrgency powRelease openPrice latestPrice
      roundProgress roundDurationMs noise = 1 / 2 := by
  rcases h with rfl | rfl | ⟨p, rfl, hp⟩
  · rfl
  · cases openPrice <;> rfl
  · cases latestPrice with
    | none => rfl
    | some lp => simp [getUpProbability, hp]

/-- Witness for C8 at a null latest price, and at a zero open price. -/
theorem c8_degenerate_half_witness :
    getUpProbability (fun x => x) (fun x => x) (some 100) none (1 / 2) 30000 0 =
        1 / 2 ∧
    getUpProbability (fun x => x) (fun x => x) (some 0) (some 5) (1 / 2) 30000 0 =
        1 / 2 :=
  ⟨c8_degenerate_half _ _ _ _ _ _ _ (Or.inr (Or.inl rfl)),
    c8_degenerate_half _ _ _ _ _ _ _ (Or.inr (Or.inr ⟨0, rfl, le_refl 0⟩))⟩

/-! ## Claim C1: settlement classification and fixed rate payouts. -/

theorem fixedRate_settleOne_push {sp t : ℚ} {p : FixedRate.OpenPosition}
    (h : sp = p.entryPrice) :
    FixedRate.settleOne sp t p =
      ⟨p, PositionStatus.push, sp, 0, p.amount, t⟩ := by
  subst h
  unfold FixedRate.settleOne
  rcases hd : p.direction <;> simp [hd, lt_irrefl]

theorem fixedRate_settleOne_win {sp t : ℚ} {p : FixedRate.OpenPosition}
    (h : (p.direction = Direction.up ∧ p.entryPrice < sp) ∨
      (p.direction = Direction.down ∧ sp < p.entryPrice)) :
    FixedRate.settleOne sp t p =
      ⟨p, PositionStatus.win, sp, roundToTwo (p.amount * SHORTS_PAYOUT_RATE),
        p.amount + roundToTwo (p.amount * SHORTS_PAYOUT_RATE), t⟩ := by
  have hne : ¬(sp = p.entryPrice) := by
    rcases h with ⟨_, hlt⟩ | ⟨_, hlt⟩ <;> intro he0 <;> rw [he0] at hlt <;>
      exact lt_irrefl _ hlt
  unfold FixedRate.settleOne
  rcases h with ⟨hd, hlt⟩ | ⟨hd, hlt⟩ <;> simp [hd, hlt, hne]

theorem fixedRate_settleOne_loss {sp t : ℚ} {p : FixedRate.OpenPosition}
    (hne : ¬(sp = p.entryPrice))
    (h : ¬((p.direction = Direction.up ∧ p.entryPrice < sp) ∨
      (p.direction = Direction.down ∧ sp < p.entryPrice))) :
    FixedRate.settleOne sp t p =
      ⟨p, PositionStatus.loss, sp, 0, 0, t⟩ := by
  push_neg at h
  unfold FixedRate.settleOne
  rcases hd : p.direction
  · simp [hd, hne, h.1 hd]
  · simp [hd, hne, h.2 hd]

/-- C1: every open position whose round id matches a resolved settlement
event is settled; the outcome is win exactly when the settle price moved
strictly in the direction of the bet, push exactly when it equals the
entry price, loss otherwise; in the fixed rate variant a win pays the
stake plus roundToTwo of ninety percent of the stake, a push refunds the
stake with zero profit and a loss pays zero; the whole payout total of the
batch is credited to the balance in one update. -/
theorem c1_settlement_classification (events : List SettlementEvent)
    (resolvedAt : ℚ) (s : FixedRate.EngineState) (p : FixedRate.OpenPosition)
    (sp : ℚ) (hp : p ∈ s.openPositions)
    (he : settlePriceFor events p.roundId = some sp) :
    FixedRate.settleOne sp resolvedAt p ∈
        FixedRate.resolvedBatch events resolvedAt s.openPositions ∧
    ((FixedRate.settleOne sp resolvedAt p).status = PositionStatus.win ↔
      (p.direction = Direction.up ∧ p.entryPrice < sp) ∨
        (p.direction = Direction.down ∧ sp < p.entryPrice)) ∧
    ((FixedRate.settleOne sp resolvedAt p).status = PositionStatus.push ↔
      sp = p.entryPrice) ∧
    ((FixedRate.settleOne sp resolvedAt p).status = PositionStatus.win →
      (FixedRate.settleOne sp resolvedAt p).payout =
          p.amount + roundToTwo (p.amount * SHORTS_PAYOUT_RATE) ∧
        (FixedRate.settleOne sp resolvedAt p).profit =
          roundToTwo (p.amount * SHORTS_PAYOUT_RATE)) ∧
    ((FixedRate.settleOne sp resolvedAt p).status = PositionStatus.push →
      (FixedRate.settleOne sp resolvedAt p).payout = p.amount ∧
        (FixedRate.settleOne sp resolvedAt p).profit = 0) ∧
    ((FixedRate.settleOne sp resolvedAt p).status = PositionStatus.loss →
      (FixedRate.settleOne sp resolvedAt p).payout = 0) ∧
    (FixedRate.resolveRounds events resolvedAt s).balance =
      s.balance +
        ((FixedRate.resolvedBatch events resolvedAt s.openPositions).map
          (·.payout)).sum := by
  have hmem : FixedRate.settleOne sp resolvedAt p ∈
      FixedRate.resolvedBatch events resolvedAt s.openPositions := by
    unfold FixedRate.resolvedBatch
    exact List.mem_filterMap.mpr ⟨p, hp, by rw [he]; rfl⟩
  have hbal : (FixedRate.resolveRounds events resolvedAt s).balance =
      s.balance +
        ((FixedRate.resolvedBatch events resolvedAt s.openPositions).map
          (·.payout)).sum := by
    have hev : ¬(events = []) := by
      intro h0
      rw [h0] at he
      simp [settlePriceFor] at he
    have hres : ¬(FixedRate.resolvedBatch events resolvedAt s.openPositions = []) := by
      intro h0
      rw [h0] at hmem
      cases hmem
    unfold FixedRate.resolveRounds
    simp only [if_neg hev, if_neg hres]
  refine ⟨hmem, ?_⟩
  by_cases hpush : sp = p.entryPrice
  · rw [fixedRate_settleOne_push hpush]
    refine ⟨?_, ⟨fun _ => hpush, fun _ => rfl⟩, ?_, fun _ => ⟨rfl, rfl⟩, ?_, hbal⟩
    · constructor
      · intro h0
        cases h0
      · rintro (⟨_, hlt⟩ | ⟨_, hlt⟩) <;> rw [hpush] at hlt <;>
          exact absurd hlt (lt_irrefl _)
    · intro h0
      cases h0
    · intro h0
      cases h0
  · by_cases hwin : (p.direction = Direction.up ∧ p.entryPrice < sp) ∨
        (p.direction = Direction.down ∧ sp < p.entryPrice)
    · rw [fixedRate_settleOne_win hwin]
      refine ⟨⟨fun _ => hwin, fun _ => rfl⟩, ?_, fun _ => ⟨rfl, rfl⟩, ?_, ?_, hbal⟩
      · constructor
        · intro h0
          cases h0
        · intro h0
          exact absurd h0 hpush
      · intro h0
        cases h0
      · intro h0
        cases h0
    · rw [fixedRate_settleOne_loss hpush hwin]
      refine ⟨?_, ?_, ?_, ?_, fun _ => rfl, hbal⟩
      · constructor
        · intro h0
          cases h0
        · intro h0
          exact absurd h0 hwin
      · constructor
        · intro h0
          cases h0
        · intro h0
          exact absurd h0 hpush
      · intro h0
        cases h0
      · intro h0
        cases h0

/-- Witness for C1: open price 100, direction up, settle price 110, stake
50 yields status win, profit 45, payout 95, and the balance rises by 95. -/
theorem c1_settlement_classification_witness :
    (FixedRate.resolveRounds [⟨"r1", 110⟩] 99
      ⟨10000, [⟨"p1", "BTC-30s", "r1", Direction.up, 50, 0, 30000, 100⟩],
        [], []⟩).balance = 10095 ∧
    (FixedRate.settleOne 110 99
      ⟨"p1", "BTC-30s", "r1", Direction.up, 50, 0, 30000, 100⟩).status =
        PositionStatus.win ∧
    (FixedRate.settleOne 110 99
      ⟨"p1", "BTC-30s", "r1", Direction.up, 50, 0, 30000, 100⟩).profit = 45 ∧
    (FixedRate.settleOne 110 99
      ⟨"p1", "BTC-30s", "r1", Direction.up, 50, 0, 30000, 100⟩).payout = 95 := by
  have hsp : settlePriceFor [⟨"r1", 110⟩] "r1" = some 110 := by
    simp [settlePriceFor]
  have h := c1_settlement_classification [⟨"r1", 110⟩] 99
      ⟨10000, [⟨"p1", "BTC-30s", "r1", Direction.up, 50, 0, 30000, 100⟩], [], []⟩
      ⟨"p1", "BTC-30s", "r1", Direction.up, 50, 0, 30000, 100⟩
      110 (List.mem_singleton.mpr rfl) hsp
  have hwin : (Direction.up = Direction.up ∧ (100 : ℚ) < 110) ∨
      (Direction.up = Direction.down ∧ (110 : ℚ) < 100) :=
    Or.inl ⟨rfl, by norm_num⟩
  have hone := @fixedRate_settleOne_win 110 99
      ⟨"p1", "BTC-30s", "r1", Direction.up, 50, 0, 30000, 100⟩ hwin
  have hval : roundToTwo ((50 : ℚ) * SHORTS_PAYOUT_RATE) = 45 := by
    norm_num [roundToTwo, jsRound, SHORTS_PAYOUT_RATE]
  refine ⟨?_, h.2.1.mpr hwin, ?_, ?_⟩
  · rw [h.2.2.2.2.2.2]
    have hb : FixedRate.resolvedBatch [⟨"r1", 110⟩] 99
        [⟨"p1", "BTC-30s", "r1", Direction.up, 50, 0, 30000, 100⟩] =
        [FixedRate.settleOne 110 99
          ⟨"p1", "BTC-30s", "r1", Direction.up, 50, 0, 30000, 100⟩] := by
      simp [FixedRate.resolvedBatch, hsp]
    rw [hb, hone]
    simp only [List.map_cons, List.map_nil, List.sum_cons, List.sum_nil]
    rw [hval]
    norm_num
  · rw [hone]
    exact hval
  · rw [hone]
    rw [show ((FixedRate.SettledPosition.mk
      ⟨"p1", "BTC-30s", "r1", Direction.up, 50, 0, 30000, 100⟩
      PositionStatus.win 110 (roundToTwo (50 * SHORTS_PAYOUT_RATE))
      (50 + roundToTwo (50 * SHORTS_PAYOUT_RATE)) 99).payout) =
      50 + roundToTwo (50 * SHORTS_PAYOUT_RATE) from rfl, hval]
    norm_num

/-! ## Claim C2: every position is settled exactly once. -/

theorem quoteMarket_resolvedBatch_eq_nil_iff {events : List SettlementEvent}
    {t : ℚ} {positions : List QuoteMarket.OpenPosition} :
    QuoteMarket.resolvedBatch events t positions = [] ↔
      ∀ p ∈ positions, settlePriceFor events p.roundId = none := by
  unfold QuoteMarket.resolvedBatch
  rw [List.filterMap_eq_nil_iff]
  constructor <;> intro h p hp
  · have := h p hp
    rcases hsp : settlePriceFor events p.roundId with _ | sp
    · rfl
    · rw [hsp] at this
      cases this
  · rw [h p hp]
    rfl

theorem quoteMarket_resolveRounds_pending (events : List SettlementEvent)
    (t : ℚ) (s : QuoteMarket.EngineState) :
    (QuoteMarket.resolveRounds events t s).pendingSettlements =
      s.pendingSettlements := by
  unfold QuoteMarket.resolveRounds
  by_cases hev : events = [] <;>
    by_cases hres : QuoteMarket.resolvedBatch events t s.openPositions = [] <;>
    simp [hev, hres]

/-- C2: applying the same settlement events twice is a no-op the second
time, because settlement removed every matching position from the open set
in the very step that credited its payout; and while the oracle price for
a queued round is null, processPendingSettlements keeps the round queued
and leaves all of its positions in the open set. -/
theorem c2_settle_exactly_once (events : List SettlementEvent) (t1 t2 : ℚ)
    (s : QuoteMarket.EngineState) (oracle : String → Option ℚ) (t3 : ℚ)
    (s2 : QuoteMarket.EngineState) (item : PendingSettlement)
    (hmem : item ∈ s2.pendingSettlements)
    (hnull : oracle item.asset = none)
    (hnodup : (s2.pendingSettlements.map (·.roundId)).Nodup) :
    QuoteMarket.resolveRounds events t2 (QuoteMarket.resolveRounds events t1 s) =
        QuoteMarket.resolveRounds events t1 s ∧
    (∀ p ∈ s.openPositions, (settlePriceFor events p.roundId).isSome →
      p ∉ (QuoteMarket.resolveRounds events t1 s).openPositions) ∧
    item ∈ (QuoteMarket.processPendingSettlements oracle t3 s2).pendingSettlements ∧
    (∀ p ∈ s2.openPositions, p.roundId = item.roundId →
      p ∈ (QuoteMarket.processPendingSettlements oracle t3 s2).openPositions) := by
  have hfilter_none : ∀ (positions : List QuoteMarket.OpenPosition),
      ∀ p ∈ QuoteMarket.stillOpenAfter events positions,
        settlePriceFor events p.roundId = none := by
    intro positions p hp
    have h2 := (List.mem_filter.mp hp).2
    rwa [Option.isNone_iff_eq_none] at h2
  refine ⟨?_, ?_, ?_, ?_⟩
  · by_cases hev : events = []
    · simp [QuoteMarket.resolveRounds, hev]
    · by_cases hres : QuoteMarket.resolvedBatch events t1 s.openPositions = []
      · have hres2 : QuoteMarket.resolvedBatch events t2 s.openPositions = [] :=
          quoteMarket_resolvedBatch_eq_nil_iff.mpr
            (quoteMarket_resolvedBatch_eq_nil_iff.mp hres)
        simp [QuoteMarket.resolveRounds, hev, hres, hres2]
      · have hfirst : QuoteMarket.resolveRounds events t1 s =
            { s with
              openPositions := QuoteMarket.stillOpenAfter events s.openPositions
              balance := s.balance +
                ((QuoteMarket.resolvedBatch events t1 s.openPositions).map
                  (·.payout)).sum
              settledPositions :=
                (((QuoteMarket.resolvedBatch events t1 s.openPositions).mergeSort
                    fun a b => decide (b.resolvedAt ≤ a.resolvedAt)) ++
                  s.settledPositions).take 40 } := by
          unfold QuoteMarket.resolveRounds
          simp only [if_neg hev, if_neg hres]
        have hres2 : QuoteMarket.resolvedBatch events t2
            (QuoteMarket.stillOpenAfter events s.openPositions) = [] :=
          quoteMarket_resolvedBatch_eq_nil_iff.mpr (hfilter_none s.openPositions)
        rw [hfirst]
        unfold QuoteMarket.resolveRounds
        simp only [if_neg hev]
        simp [hres2]
  · intro p hp hsome
    by_cases hev : events = []
    · rw [hev] at hsome
      simp [settlePriceFor] at hsome
    · have hne : QuoteMarket.resolvedBatch events t1 s.openPositions ≠ [] := by
        intro h0
        have := quoteMarket_resolvedBatch_eq_nil_iff.mp h0 p hp
        rw [this] at hsome
        cases hsome
      unfold QuoteMarket.resolveRounds
      simp only [if_neg hev, if_neg hne]
      intro hmem2
      have := hfilter_none s.openPositions p hmem2
      rw [this] at hsome
      cases hsome
  · have hpend : ¬(s2.pendingSettlements = []) := by
      intro h0
      rw [h0] at hmem
      cases hmem
    have hstill : item ∈ QuoteMarket.stillPendingAfter oracle s2.pendingSettlements :=
      List.mem_filter.mpr ⟨hmem, by simp [hnull]⟩
    unfold QuoteMarket.processPendingSettlements
    simp only [if_neg hpend]
    by_cases htr : QuoteMarket.toResolveEvents oracle s2.pendingSettlements = []
    · simp only [if_pos htr]
      exact hstill
    · simp only [if_neg htr]
      rw [quoteMarket_resolveRounds_pending]
      exact hstill
  · intro p hp hpr
    have hpnone : settlePriceFor
        (QuoteMarket.toResolveEvents oracle s2.pendingSettlements) p.roundId = none := by
      apply settlePriceFor_eq_none_of_forall
      intro e he
      rcases List.mem_filterMap.mp he with ⟨it, hit, hoit⟩
      rcases hor : oracle it.asset with _ | sp
      · rw [hor] at hoit
        cases hoit
      · rw [hor] at hoit
        have heq : e = { roundId := it.roundId, settlePrice := sp } := by
          cases hoit
          rfl
        rw [heq]
        intro hid
        have : it = item :=
          List.inj_on_of_nodup_map hnodup hit hmem (hid.trans hpr)
        rw [this] at hor
        rw [hnull] at hor
        cases hor
    have hpend : ¬(s2.pendingSettlements = []) := by
      intro h0
      rw [h0] at hmem
      cases hmem
    unfold QuoteMarket.processPendingSettlements
    simp only [if_neg hpend]
    by_cases htr : QuoteMarket.toResolveEvents oracle s2.pendingSettlements = []
    · simp only [if_pos htr]
      exact hp
    · simp only [if_neg htr]
      unfold QuoteMarket.resolveRounds
      simp only [if_neg htr]
      by_cases hres : QuoteMarket.resolvedBatch
          (QuoteMarket.toResolveEvents oracle s2.pendingSettlements) t3
          s2.openPositions = []
      · simp only [if_pos hres]
        exact hp
      · simp only [if_neg hres]
        exact List.mem_filter.mpr ⟨hp, by simp [hpnone]⟩

/-- Witness for C2: a one position state settled by the same event twice,
and a queued round whose oracle price is null. -/
theorem c2_settle_exactly_once_witness :
    QuoteMarket.resolveRounds [⟨"r1", 110⟩] 2
        (QuoteMarket.resolveRounds [⟨"r1", 110⟩] 1
          ⟨10000, [⟨"p1", "BTC-30s", "r1", Direction.up, 50, 0, 30000, 100,
            1 / 2, 1⟩], [], [], []⟩) =
      QuoteMarket.resolveRounds [⟨"r1", 110⟩] 1
        ⟨10000, [⟨"p1", "BTC-30s", "r1", Direction.up, 50, 0, 30000, 100,
          1 / 2, 1⟩], [], [], []⟩ ∧
    (⟨"r1", "BTC"⟩ : PendingSettlement) ∈
      (QuoteMarket.processPendingSettlements (fun _ => none) 3
        ⟨10000, [], [], [⟨"r1", "BTC"⟩], []⟩).pendingSettlements := by
  have h := c2_settle_exactly_once [⟨"r1", 110⟩] 1 2
      ⟨10000, [⟨"p1", "BTC-30s", "r1", Direction.up, 50, 0, 30000, 100,
        1 / 2, 1⟩], [], [], []⟩
      (fun _ => none) 3
      ⟨10000, [], [], [⟨"r1", "BTC"⟩], []⟩
      ⟨"r1", "BTC"⟩ (List.mem_singleton.mpr rfl) rfl (by simp)
  exact ⟨h.1, h.2.2.1⟩

/-! ## Claim C6: the pending settlement queue never holds two entries with
the same round id. -/

theorem mergeAux_nodup :
    ∀ (newItems : List PendingSettlement)
      (acc : List PendingSettlement × List String),
      (∀ rid ∈ acc.1.map (·.roundId), rid ∈ acc.2) →
      (acc.1.map (·.roundId)).Nodup →
      (((newItems.foldl
          (fun (acc2 : List PendingSettlement × List String) item =>
            if item.roundId ∈ acc2.2 then acc2
            else (acc2.1 ++ [item], item.roundId :: acc2.2)) acc).1.map
        (·.roundId)).Nodup)
  | [], _, _, hnd => by simpa using hnd
  | item :: rest, acc, hsub, hnd => by
    rw [List.foldl_cons]
    by_cases hmem : item.roundId ∈ acc.2
    · rw [if_pos hmem]
      exact mergeAux_nodup rest acc hsub hnd
    · rw [if_neg hmem]
      refine mergeAux_nodup rest (acc.1 ++ [item], item.roundId :: acc.2) ?_ ?_
      · intro rid hr
        rw [List.map_append] at hr
        rcases List.mem_append.mp hr with hr1 | hr2
        · exact List.mem_cons_of_mem _ (hsub rid hr1)
        · have hrid : rid = item.roundId := by simpa using hr2
          rw [hrid]
          exact List.mem_cons_self _ _
      · rw [List.map_append]
        refine List.Nodup.append hnd (by simp) ?_
        intro rid hr1 hr2
        have hrid : rid = item.roundId := by simpa using hr2
        rw [hrid] at hr1
        exact hmem (hsub _ hr1)

/-- C6: every reachable state of the pending settlements queue has pairwise
distinct round ids, because newly ended rounds are merged in through a seen
set keyed by round id and draining only removes entries. -/
theorem c6_pending_queue_dedup (pending : List PendingSettlement)
    (h : PendingReachable pending) : (pending.map (·.roundId)).Nodup := by
  induction h with
  | init => simp
  | enqueue pending newItems _ ih =>
    unfold mergeSettlements
    exact mergeAux_nodup newItems (pending, pending.map (·.roundId))
      (fun rid hr => hr) ih
  | drain pending oracle _ ih =>
    exact ih.sublist (List.Sublist.map _ (List.filter_sublist pending))

/-- Witness for C6: enqueueing two new rounds with the same id keeps the
queue duplicate free. -/
theorem c6_pending_queue_dedup_witness :
    ((mergeSettlements [] [⟨"r1", "BTC"⟩, ⟨"r1", "ETH"⟩, ⟨"r2", "ETH"⟩]).map
      (·.roundId)).Nodup :=
  c6_pending_queue_dedup _
    (PendingReachable.enqueue [] [⟨"r1", "BTC"⟩, ⟨"r1", "ETH"⟩, ⟨"r2", "ETH"⟩]
      PendingReachable.init)

/-! ## Claim C5: placePosition rejects with no side effect. -/

theorem qm_placeDecision_none_feed {markets feed rounds nowMs key dir quote suffix s}
    (h : feed ≠ FeedStatus.live) :
    QuoteMarket.placeDecision markets feed rounds nowMs key dir quote suffix s =
      none := by
  simp [QuoteMarket.placeDecision, h]

theorem qm_placeDecision_none_openPrice {markets feed rounds nowMs key dir quote
    suffix s} (h : (rounds key).bind (·.openPrice) = none) :
    QuoteMarket.placeDecision markets feed rounds nowMs key dir quote suffix s =
      none := by
  unfold QuoteMarket.placeDecision
  by_cases h1 : feed = FeedStatus.live
  · rcases hro : rounds key with _ | r
    · simp [h1, hro]
    · rw [hro] at h
      simp only [Option.some_bind] at h
      simp [h1, hro, h]
  · simp [h1]

theorem qm_placeDecision_none_ended {markets feed rounds nowMs key dir quote
    suffix s} (r : QuoteMarket.MarketRound) (hr : rounds key = some r)
    (hend : r.endTime ≤ nowMs) :
    QuoteMarket.placeDecision markets feed rounds nowMs key dir quote suffix s =
      none := by
  unfold QuoteMarket.placeDecision
  by_cases h1 : feed = FeedStatus.live
  · by_cases h2 : 0 < quote ∧ quote < 1
    · rcases hop : r.openPrice with _ | op
      · simp [h1, h2, hr, hop]
      · simp [h1, h2, hr, hop, hend]
    · simp [h1, h2]
  · simp [h1]

theorem qm_placeDecision_none_balance {markets feed rounds nowMs key dir quote
    suffix s} (h : s.balance < DEFAULT_BET_AMOUNT) :
    QuoteMarket.placeDecision markets feed rounds nowMs key dir quote suffix s =
      none := by
  unfold QuoteMarket.placeDecision
  by_cases h1 : feed = FeedStatus.live
  · by_cases h2 : 0 < quote ∧ quote < 1
    · rcases hro : rounds key with _ | r
      · simp [h1, h2, hro]
      · rcases hop : r.openPrice with _ | op
        · simp [h1, h2, hro, hop]
        · by_cases h3 : r.endTime ≤ nowMs
          · simp [h1, h2, hro, hop, h3]
          · simp [h1, h2, hro, hop, h3, h]
    · simp [h1, h2]
  · simp [h1]

/-- C5: placePosition rejects with no side effect at all, in both variants,
whenever the price feed is not live, or the current round of the market has
no captured open price, or the current time is at or after the round end
(at or after the lock time in the lock window variant), or the balance is
less than the stake. -/
theorem c5_place_rejections
    (markets : List QuoteMarket.Market) (feedA : FeedStatus)
    (roundsA : String → Option QuoteMarket.MarketRound) (nowA : ℚ)
    (keyA : String) (dirA : Direction) (quoteA : ℚ) (sufA actA : String)
    (sA : QuoteMarket.EngineState)
    (feedB oracleB : FeedStatus)
    (roundsB : String → Option FixedRate.MarketRound) (nowB : ℚ)
    (keyB : String) (dirB : Direction) (amountB : ℚ) (sufB : String)
    (sB : FixedRate.EngineState) :
    ((feedA ≠ FeedStatus.live ∨
        (roundsA keyA).bind (·.openPrice) = none ∨
        (∃ r, roundsA keyA = some r ∧ r.endTime ≤ nowA) ∨
        sA.balance < DEFAULT_BET_AMOUNT) →
      QuoteMarket.placePosition markets feedA roundsA nowA keyA dirA quoteA
        sufA actA sA = sA) ∧
    ((feedB ≠ FeedStatus.live ∨
        (roundsB keyB).bind (·.openPrice) = none ∨
        (∃ r, roundsB keyB = some r ∧ r.lockTime ≤ nowB) ∨
        sB.balance < amountB) →
      FixedRate.placePosition feedB oracleB roundsB nowB keyB dirB amountB
        sufB sB = sB) := by
  constructor
  · intro hc
    have hdec : QuoteMarket.placeDecision markets feedA roundsA nowA keyA dirA
        quoteA sufA sA = none := by
      rcases hc with hfeed | hopen | ⟨r, hr, hend⟩ | hbal
      · exact qm_placeDecision_none_feed hfeed
      · exact qm_placeDecision_none_openPrice hopen
      · exact qm_placeDecision_none_ended r hr hend
      · exact qm_placeDecision_none_balance hbal
    unfold QuoteMarket.placePosition
    rw [hdec]
  · intro hc
    unfold FixedRate.placePosition
    rcases hc with hfeed | hopen | ⟨r, hr, hlock⟩ | hbal
    · simp [hfeed]
    · by_cases h1 : feedB = FeedStatus.live ∧ oracleB = FeedStatus.live
      · rcases hro : roundsB keyB with _ | r
        · simp [h1.1, h1.2, hro]
        · rw [hro] at hopen
          simp only [Option.some_bind] at hopen
          simp [h1.1, h1.2, hro, hopen]
      · rcases (not_and_or.mp h1) with h2 | h2 <;> simp [h2]
    · by_cases h1 : feedB = FeedStatus.live ∧ oracleB = FeedStatus.live
      · rcases hop : r.openPrice with _ | op
        · simp [h1.1, h1.2, hr, hop]
        · simp [h1.1, h1.2, hr, hop, hlock]
      · rcases (not_and_or.mp h1) with h2 | h2 <;> simp [h2]
    · by_cases h1 : feedB = FeedStatus.live ∧ oracleB = FeedStatus.live
      · rcases hro : roundsB keyB with _ | r
        · simp [h1.1, h1.2, hro]
        · rcases hop : r.openPrice with _ | op
          · simp [h1.1, h1.2, hro, hop]
          · by_cases h3 : r.lockTime ≤ nowB
            · simp [h1.1, h1.2, hro, hop, h3]
            · simp [h1.1, h1.2, hro, hop, h3, hbal]
      · rcases (not_and_or.mp h1) with h2 | h2 <;> simp [h2]

/-- Witness for C5: balance 20 with stake 50 leaves the balance at 20 and
creates no position, in both variants. -/
theorem c5_place_rejections_witness :
    QuoteMarket.placePosition QuoteMarket.SHORTS_MARKETS FeedStatus.live
        (fun _ => some ⟨"BTC-30s-0", "BTC-30s", 0, 30000, some 100⟩) 1000
        "BTC-30s" Direction.up (1 / 2) "x" "y" ⟨20, [], [], [], []⟩ =
      ⟨20, [], [], [], []⟩ ∧
    FixedRate.placePosition FeedStatus.live FeedStatus.live
        (fun _ => some ⟨"BTC-30s-0", "BTC-30s", 0, 30000, 27000, some 100⟩) 1000
        "BTC-30s" Direction.up 50 "x" ⟨20, [], [], []⟩ =
      ⟨20, [], [], []⟩ := by
  have h := c5_place_rejections QuoteMarket.SHORTS_MARKETS FeedStatus.live
      (fun _ => some ⟨"BTC-30s-0", "BTC-30s", 0, 30000, some 100⟩) 1000
      "BTC-30s" Direction.up (1 / 2) "x" "y" ⟨20, [], [], [], []⟩
      FeedStatus.live FeedStatus.live
      (fun _ => some ⟨"BTC-30s-0", "BTC-30s", 0, 30000, 27000, some 100⟩) 1000
      "BTC-30s" Direction.up 50 "x" ⟨20, [], [], []⟩
  exact ⟨h.1 (Or.inr (Or.inr (Or.inr (by norm_num [DEFAULT_BET_AMOUNT])))),
    h.2 (Or.inr (Or.inr (Or.inr (by norm_num))))⟩

/-! ## Claim C9: the rotation rule rejects bets that satisfy all four
documented acceptance preconditions. -/

/-- C9: placePosition of the quote market variant rejects with no state
change even when the feed is live, the round has a captured open price, the
round has not ended and the balance covers the stake — whenever the caller
already holds a position in the current round of that market and some other
market has an open, unexpired round in which the caller holds no
position. -/
theorem c9_rotation_rejection (feed : FeedStatus)
    (rounds : String → Option QuoteMarket.MarketRound) (nowMs : ℚ)
    (marketKey : String) (dir : Direction) (quote : ℚ) (suffix actId : String)
    (s : QuoteMarket.EngineState) (r : QuoteMarket.MarketRound)
    (m : QuoteMarket.Market) (r2 : QuoteMarket.MarketRound)
    (hfeed : feed = FeedStatus.live)
    (hr : rounds marketKey = some r)
    (hop : r.openPrice.isSome)
    (hend : nowMs < r.endTime)
    (hbal : DEFAULT_BET_AMOUNT ≤ s.balance)
    (hheld : 0 < QuoteMarket.countCurrentRoundPositions s.openPositions rounds
      marketKey)
    (hm : m ∈ QuoteMarket.SHORTS_MARKETS)
    (hmne : m.key ≠ marketKey)
    (hr2 : rounds m.key = some r2)
    (hop2 : r2.openPrice.isSome)
    (hend2 : nowMs < r2.endTime)
    (hnone : QuoteMarket.countCurrentRoundPositions s.openPositions rounds
      m.key = 0) :
    QuoteMarket.placePosition QuoteMarket.SHORTS_MARKETS feed rounds nowMs
      marketKey dir quote suffix actId s = s := by
  have hdec : QuoteMarket.placeDecision QuoteMarket.SHORTS_MARKETS feed rounds
      nowMs marketKey dir quote suffix s = none := by
    unfold QuoteMarket.placeDecision
    by_cases h2 : 0 < quote ∧ quote < 1
    · obtain ⟨op, hopx⟩ := Option.isSome_iff_exists.mp hop
      have hnotend : ¬(r.endTime ≤ nowMs) := not_le.mpr hend
      have hnotbal : ¬(s.balance < DEFAULT_BET_AMOUNT) := not_lt.mpr hbal
      have hpri : QuoteMarket.shouldPrioritizeOtherMarkets
          QuoteMarket.SHORTS_MARKETS s.openPositions rounds nowMs marketKey =
          true := by
        unfold QuoteMarket.shouldPrioritizeOtherMarkets
        rw [if_neg (Nat.pos_iff_ne_zero.mp hheld)]
        rw [List.any_eq_true]
        refine ⟨m, hm, ?_⟩
        simp [hmne, hr2, hop2, hend2, hnone]
      by_cases h3 : roundToFour (DEFAULT_BET_AMOUNT / TOKEN_TO_USDC_RATE / quote) ≤ 0
      · simp [hfeed, h2, hr, hopx, hnotend, hnotbal, h3]
      · simp [hfeed, h2, hr, hopx, hnotend, hnotbal, h3, hpri, hheld]
    · simp [hfeed, h2]
  unfold QuoteMarket.placePosition
  rw [hdec]

/-- Witness for C9: a live feed, an open unexpired BTC-30s round, ample
balance, one held position in the current BTC-30s round and an open
unexpired BTC-1m round with no position still gets rejected. -/
theorem c9_rotation_rejection_witness :
    QuoteMarket.placePosition QuoteMarket.SHORTS_MARKETS FeedStatus.live
      (fun k => if k = "BTC-30s" then some ⟨"cur30", "BTC-30s", 0, 30000, some 100⟩
        else if k = "BTC-1m" then some ⟨"cur60", "BTC-1m", 0, 60000, some 101⟩
        else none)
      1000 "BTC-30s" Direction.up (1 / 2) "x" "y"
      ⟨10000,
        [⟨"p1", "BTC-30s", "cur30", Direction.up, 50, 0, 30000, 100, 1 / 2, 1⟩],
        [], [], []⟩ =
    ⟨10000,
      [⟨"p1", "BTC-30s", "cur30", Direction.up, 50, 0, 30000, 100, 1 / 2, 1⟩],
      [], [], []⟩ := by
  refine c9_rotation_rejection FeedStatus.live _ 1000 "BTC-30s" Direction.up
      (1 / 2) "x" "y" _ ⟨"cur30", "BTC-30s", 0, 30000, some 100⟩
      ⟨"BTC-1m", "BTC", "BTCUSDT", 60, "BTC 1m"⟩
      ⟨"cur60", "BTC-1m", 0, 60000, some 101⟩
      rfl (by simp) rfl (by norm_num) (by norm_num [DEFAULT_BET_AMOUNT]) ?_
      (by simp [QuoteMarket.SHORTS_MARKETS]) (by simp) (by simp) rfl
      (by norm_num) ?_
  · simp [QuoteMarket.countCurrentRoundPositions]
  · simp [QuoteMarket.countCurrentRoundPositions]

/-! ## Claim C7: quote boundedness. -/

theorem getProbabilityBounds_early {powRelease : ℚ → ℚ} {prog dur : ℚ}
    (h : clamp prog 0 1 ≤ boundsReleaseStart dur) :
    getProbabilityBounds powRelease prog dur =
      (EARLY_MIN_PROBABILITY, EARLY_MAX_PROBABILITY) := by
  simp only [getProbabilityBounds]
  rw [if_pos h]

theorem getProbabilityBounds_late {powRelease : ℚ → ℚ} {prog dur : ℚ}
    (h : ¬(clamp prog 0 1 ≤ boundsReleaseStart dur)) :
    getProbabilityBounds powRelease prog dur =
      (EARLY_MIN_PROBABILITY +
          (FINAL_MIN_PROBABILITY - EARLY_MIN_PROBABILITY) *
            powRelease (clamp ((clamp prog 0 1 - boundsReleaseStart dur) /
              max (1 - boundsReleaseStart dur) NumberEPSILON) 0 1),
        EARLY_MAX_PROBABILITY +
          (FINAL_MAX_PROBABILITY - EARLY_MAX_PROBABILITY) *
            powRelease (clamp ((clamp prog 0 1 - boundsReleaseStart dur) /
              max (1 - boundsReleaseStart dur) NumberEPSILON) 0 1)) := by
  simp only [getProbabilityBounds]
  rw [if_neg h]

theorem getProbabilityBounds_range {powRelease : ℚ → ℚ}
    (hrange : ∀ x, 0 ≤ x → x ≤ 1 → 0 ≤ powRelease x ∧ powRelease x ≤ 1)
    (prog dur : ℚ) :
    3 / 20 ≤ (getProbabilityBounds powRelease prog dur).1 ∧
    (getProbabilityBounds powRelease prog dur).1 ≤ 1 / 5 ∧
    4 / 5 ≤ (getProbabilityBounds powRelease prog dur).2 ∧
    (getProbabilityBounds powRelease prog dur).2 ≤ 17 / 20 := by
  by_cases h : clamp prog 0 1 ≤ boundsReleaseStart dur
  · rw [getProbabilityBounds_early h]
    norm_num [EARLY_MIN_PROBABILITY, EARLY_MAX_PROBABILITY]
  · rw [getProbabilityBounds_late h]
    have hm := @clamp_mem_of_le ((clamp prog 0 1 - boundsReleaseStart dur) /
      max (1 - boundsReleaseStart dur) NumberEPSILON) 0 1 (by norm_num)
    have ht := hrange _ hm.1 hm.2
    simp only [EARLY_MIN_PROBABILITY, EARLY_MAX_PROBABILITY,
      FINAL_MIN_PROBABILITY, FINAL_MAX_PROBABILITY]
    constructor
    · linarith [ht.1, ht.2]
    constructor
    · linarith [ht.1, ht.2]
    constructor
    · linarith [ht.1, ht.2]
    · linarith [ht.1, ht.2]

theorem getProbabilityBounds_mono {powRelease : ℚ → ℚ}
    (hrange : ∀ x, 0 ≤ x → x ≤ 1 → 0 ≤ powRelease x ∧ powRelease x ≤ 1)
    (hmono : ∀ x y, 0 ≤ x → x ≤ y → y ≤ 1 → powRelease x ≤ powRelease y)
    (dur : ℚ) {p1 p2 : ℚ} (h12 : p1 ≤ p2) :
    (getProbabilityBounds powRelease p2 dur).1 ≤
        (getProbabilityBounds powRelease p1 dur).1 ∧
    (getProbabilityBounds powRelease p1 dur).2 ≤
        (getProbabilityBounds powRelease p2 dur).2 := by
  have hnp : clamp p1 0 1 ≤ clamp p2 0 1 := clamp_le_clamp 0 1 h12
  by_cases h2 : clamp p2 0 1 ≤ boundsReleaseStart dur
  · have h1 : clamp p1 0 1 ≤ boundsReleaseStart dur := le_trans hnp h2
    rw [getProbabilityBounds_early h1, getProbabilityBounds_early h2]
    exact ⟨le_refl _, le_refl _⟩
  · have hr2 := getProbabilityBounds_range hrange p2 dur
    by_cases h1 : clamp p1 0 1 ≤ boundsReleaseStart dur
    · rw [getProbabilityBounds_early h1]
      have hE1 : EARLY_MIN_PROBABILITY = 1 / 5 := by norm_num [EARLY_MIN_PROBABILITY]
      have hE2 : EARLY_MAX_PROBABILITY = 4 / 5 := by norm_num [EARLY_MAX_PROBABILITY]
      constructor
      · show (getProbabilityBounds powRelease p2 dur).1 ≤ EARLY_MIN_PROBABILITY
        rw [hE1]
        exact hr2.2.1
      · show EARLY_MAX_PROBABILITY ≤ (getProbabilityBounds powRelease p2 dur).2
        rw [hE2]
        exact hr2.2.2.1
    · have hD : (0 : ℚ) < max (1 - boundsReleaseStart dur) NumberEPSILON :=
        lt_of_lt_of_le (by norm_num [NumberEPSILON]) (le_max_right _ _)
      have hdivle : (clamp p1 0 1 - boundsReleaseStart dur) /
            max (1 - boundsReleaseStart dur) NumberEPSILON ≤
          (clamp p2 0 1 - boundsReleaseStart dur) /
            max (1 - boundsReleaseStart dur) NumberEPSILON :=
        (div_le_div_right hD).mpr (by linarith)
      have ht12 := clamp_le_clamp 0 1 hdivle
      have ht1m := @clamp_mem_of_le ((clamp p1 0 1 - boundsReleaseStart dur) /
        max (1 - boundsReleaseStart dur) NumberEPSILON) 0 1 (by norm_num)
      have ht2m := @clamp_mem_of_le ((clamp p2 0 1 - boundsReleaseStart dur) /
        max (1 - boundsReleaseStart dur) NumberEPSILON) 0 1 (by norm_num)
      have hpw := hmono _ _ ht1m.1 ht12 ht2m.2
      rw [getProbabilityBounds_late h1, getProbabilityBounds_late h2]
      constructor
      · show EARLY_MIN_PROBABILITY + _ ≤ EARLY_MIN_PROBABILITY + _
        simp only [EARLY_MIN_PROBABILITY, FINAL_MIN_PROBABILITY]
        linarith
      · show EARLY_MAX_PROBABILITY + _ ≤ EARLY_MAX_PROBABILITY + _
        simp only [EARLY_MAX_PROBABILITY, FINAL_MAX_PROBABILITY]
        linarith

theorem getUpProbability_eq_clamp {powUrgency powRelease : ℚ → ℚ}
    {op lp prog dur noise : ℚ} (hop : 0 < op) :
    getUpProbability powUrgency powRelease (some op) (some lp) prog dur noise =
      clamp (1 / 2 + (lp - op) / op * QUOTE_SENSITIVITY *
          getQuoteUrgency powUrgency prog + noise)
        (getProbabilityBounds powRelease prog dur).1
        (getProbabilityBounds powRelease prog dur).2 := by
  simp only [getUpProbability]
  rw [if_neg (not_le.mpr hop)]

theorem getContractQuotes_spec (powUrgency powRelease : ℚ → ℚ)
    (openPrice latestPrice : Option ℚ) (prog dur : ℚ) :
    (getContractQuotes powUrgency powRelease openPrice latestPrice prog dur).1 +
        (getContractQuotes powUrgency powRelease openPrice latestPrice prog dur).2 =
      1 ∧
    3 / 20 ≤ (getContractQuotes powUrgency powRelease openPrice latestPrice
      prog dur).1 ∧
    (getContractQuotes powUrgency powRelease openPrice latestPrice prog dur).1 ≤
      17 / 20 ∧
    3 / 20 ≤ (getContractQuotes powUrgency powRelease openPrice latestPrice
      prog dur).2 ∧
    (getContractQuotes powUrgency powRelease openPrice latestPrice prog dur).2 ≤
      17 / 20 ∧
    ∃ n : ℤ,
      (getContractQuotes powUrgency powRelease openPrice latestPrice prog dur).1 =
        (n : ℚ) / 100 ∧
      (getContractQuotes powUrgency powRelease openPrice latestPrice prog dur).2 =
        ((100 - n : ℤ) : ℚ) / 100 := by
  simp only [getContractQuotes]
  set c : ℤ := jsRound (getUpProbability powUrgency powRelease openPrice
    latestPrice prog dur 0 * 100) with hc
  have h15 : MIN_CONTRACT_CENTS ≤
      min (100 - MIN_CONTRACT_CENTS) (max MIN_CONTRACT_CENTS c) :=
    le_min (by norm_num [MIN_CONTRACT_CENTS]) (le_max_left _ _)
  have h85 : min (100 - MIN_CONTRACT_CENTS) (max MIN_CONTRACT_CENTS c) ≤
      100 - MIN_CONTRACT_CENTS := min_le_left _ _
  rw [MIN_CONTRACT_CENTS] at h15 h85
  have h15q : (15 : ℚ) ≤
      ((min (100 - MIN_CONTRACT_CENTS) (max MIN_CONTRACT_CENTS c) : ℤ) : ℚ) := by
    exact_mod_cast h15
  have h85q : ((min (100 - MIN_CONTRACT_CENTS) (max MIN_CONTRACT_CENTS c) : ℤ) : ℚ) ≤
      85 := by
    exact_mod_cast h85
  have hdcast : (((100 : ℤ) -
        min (100 - MIN_CONTRACT_CENTS) (max MIN_CONTRACT_CENTS c) : ℤ) : ℚ) =
      100 - ((min (100 - MIN_CONTRACT_CENTS) (max MIN_CONTRACT_CENTS c) : ℤ) : ℚ) := by
    push_cast
    ring
  refine ⟨?_, by linarith, by linarith, ?_, ?_,
    ⟨min (100 - MIN_CONTRACT_CENTS) (max MIN_CONTRACT_CENTS c), rfl, rfl⟩⟩
  · rw [hdcast]
    ring
  · rw [hdcast]
    linarith
  · rw [hdcast]
    linarith

/-- C7: with a positive numeric open price and a numeric latest price, every
quote lies inside the progress dependent bounds window, which is exactly
[0.2, 0.8] up to the bounds release start and widens monotonically staying
inside [0.15, 0.85] afterwards; the contract quotes are integer cents with
up plus down exactly one and each side inside [0.15, 0.85]. -/
theorem c7_quote_boundedness (powUrgency powRelease : ℚ → ℚ)
    (op lp roundProgress roundDurationMs noise : ℚ)
    (hrange : ∀ x, 0 ≤ x → x ≤ 1 → 0 ≤ powRelease x ∧ powRelease x ≤ 1)
    (hmono : ∀ x y, 0 ≤ x → x ≤ y → y ≤ 1 → powRelease x ≤ powRelease y)
    (hop : 0 < op) :
    (3 / 20 ≤ (getProbabilityBounds powRelease roundProgress roundDurationMs).1 ∧
      (getProbabilityBounds powRelease roundProgress roundDurationMs).1 ≤ 1 / 5 ∧
      4 / 5 ≤ (getProbabilityBounds powRelease roundProgress roundDurationMs).2 ∧
      (getProbabilityBounds powRelease roundProgress roundDurationMs).2 ≤
        17 / 20) ∧
    ((getProbabilityBounds powRelease roundProgress roundDurationMs).1 ≤
        getUpProbability powUrgency powRelease (some op) (some lp) roundProgress
          roundDurationMs noise ∧
      getUpProbability powUrgency powRelease (some op) (some lp) roundProgress
          roundDurationMs noise ≤
        (getProbabilityBounds powRelease roundProgress roundDurationMs).2) ∧
    (clamp roundProgress 0 1 ≤ boundsReleaseStart roundDurationMs →
      getProbabilityBounds powRelease roundProgress roundDurationMs =
        (1 / 5, 4 / 5)) ∧
    (∀ p1 p2 : ℚ, p1 ≤ p2 →
      (getProbabilityBounds powRelease p2 roundDurationMs).1 ≤
          (getProbabilityBounds powRelease p1 roundDurationMs).1 ∧
        (getProbabilityBounds powRelease p1 roundDurationMs).2 ≤
          (getProbabilityBounds powRelease p2 roundDurationMs).2) ∧
    ((getContractQuotes powUrgency powRelease (some op) (some lp) roundProgress
          roundDurationMs).1 +
        (getContractQuotes powUrgency powRelease (some op) (some lp)
          roundProgress roundDurationMs).2 = 1 ∧
      3 / 20 ≤ (getContractQuotes powUrgency powRelease (some op) (some lp)
        roundProgress roundDurationMs).1 ∧
      (getContractQuotes powUrgency powRelease (some op) (some lp) roundProgress
        roundDurationMs).1 ≤ 17 / 20 ∧
      3 / 20 ≤ (getContractQuotes powUrgency powRelease (some op) (some lp)
        roundProgress roundDurationMs).2 ∧
      (getContractQuotes powUrgency powRelease (some op) (some lp) roundProgress
        roundDurationMs).2 ≤ 17 / 20 ∧
      ∃ n : ℤ,
        (getContractQuotes powUrgency powRelease (some op) (some lp)
          roundProgress roundDurationMs).1 = (n : ℚ) / 100 ∧
        (getContractQuotes powUrgency powRelease (some op) (some lp)
          roundProgress roundDurationMs).2 = ((100 - n : ℤ) : ℚ) / 100) := by
  have hr := getProbabilityBounds_range hrange roundProgress roundDurationMs
  refine ⟨hr, ?_, ?_, ?_, getContractQuotes_spec powUrgency powRelease
    (some op) (some lp) roundProgress roundDurationMs⟩
  · rw [getUpProbability_eq_clamp hop]
    exact clamp_mem_of_le (by linarith [hr.2.1, hr.2.2.1])
  · intro h
    rw [getProbabilityBounds_early h]
    norm_num [EARLY_MIN_PROBABILITY, EARLY_MAX_PROBABILITY]
  · intro p1 p2 h12
    exact getProbabilityBounds_mono hrange hmono roundDurationMs h12

/-- Witness for C7 at an identity release map, open price 100, latest price
103, progress one half of a 30000 ms round. -/
theorem c7_quote_boundedness_witness :
    ((getProbabilityBounds (fun x => x) (1 / 2) 30000).1 ≤
        getUpProbability (fun x => x) (fun x => x) (some 100) (some 103)
          (1 / 2) 30000 0 ∧
      getUpProbability (fun x => x) (fun x => x) (some 100) (some 103)
          (1 / 2) 30000 0 ≤
        (getProbabilityBounds (fun x => x) (1 / 2) 30000).2) ∧
    (getContractQuotes (fun x => x) (fun x => x) (some 100) (some 103)
        (1 / 2) 30000).1 +
      (getContractQuotes (fun x => x) (fun x => x) (some 100) (some 103)
        (1 / 2) 30000).2 = 1 := by
  have h := c7_quote_boundedness (fun x => x) (fun x => x) 100 103 (1 / 2)
      30000 0 (fun x h0 h1 => ⟨h0, h1⟩) (fun x y _ hxy _ => hxy)
      (by norm_num)
  exact ⟨h.2.1, h.2.2.2.2.1⟩

/-! ## Claim C10: the open position list is capped at 120 entries and a
placement at the cap silently discards the oldest open position. -/

/-- C10: placePosition truncates the open list with slice(0, 120), so it
never exceeds 120 entries and settlement only shrinks it; when 120
positions are open, a successful placement yields the new position plus the
first 119 old ones — the oldest open position is gone from the open set,
nothing was appended to the settled log, and the balance only lost the new
stake, so the dropped stake is neither settled nor refunded. -/
theorem c10_open_position_cap
    (markets : List QuoteMarket.Market) (feed : FeedStatus)
    (rounds : String → Option QuoteMarket.MarketRound) (nowMs : ℚ)
    (marketKey : String) (dir : Direction) (quote : ℚ) (suffix actId : String)
    (s : QuoteMarket.EngineState) (events : List SettlementEvent) (t : ℚ)
    (pos : QuoteMarket.OpenPosition)
    (front : List QuoteMarket.OpenPosition) (q : QuoteMarket.OpenPosition)
    (hdec : QuoteMarket.placeDecision markets feed rounds nowMs marketKey dir
      quote suffix s = some pos)
    (hsplit : s.openPositions = front ++ [q])
    (hfront : front.length = 119)
    (hqid : q.id ∉ front.map (·.id))
    (hqnew : q.id ≠ pos.id) :
    (∀ s2 : QuoteMarket.EngineState,
      (QuoteMarket.placePosition markets feed rounds nowMs marketKey dir quote
        suffix actId s2).openPositions.length ≤
      max s2.openPositions.length 120) ∧
    (∀ s2 : QuoteMarket.EngineState,
      (QuoteMarket.resolveRounds events t s2).openPositions.length ≤
      s2.openPositions.length) ∧
    (QuoteMarket.placePosition markets feed rounds nowMs marketKey dir quote
      suffix actId s).openPositions = pos :: front ∧
    q ∉ (QuoteMarket.placePosition markets feed rounds nowMs marketKey dir
      quote suffix actId s).openPositions ∧
    (QuoteMarket.placePosition markets feed rounds nowMs marketKey dir quote
      suffix actId s).settledPositions = s.settledPositions ∧
    (QuoteMarket.placePosition markets feed rounds nowMs marketKey dir quote
      suffix actId s).balance = s.balance - pos.amount := by
  have hopen : (QuoteMarket.placePosition markets feed rounds nowMs marketKey
      dir quote suffix actId s).openPositions = pos :: front := by
    unfold QuoteMarket.placePosition
    rw [hdec]
    show (pos :: s.openPositions).take 120 = pos :: front
    rw [hsplit]
    have h120 : (120 : ℕ) = 119 + 1 := rfl
    rw [h120, List.take_succ_cons, ← hfront, List.take_left]
  refine ⟨?_, ?_, hopen, ?_, ?_, ?_⟩
  · intro s2
    unfold QuoteMarket.placePosition
    rcases hd : QuoteMarket.placeDecision markets feed rounds nowMs marketKey
        dir quote suffix s2 with _ | p
    · exact le_max_left _ _
    · refine le_trans ?_ (le_max_right s2.openPositions.length 120)
      show ((p :: s2.openPositions).take 120).length ≤ 120
      rw [List.length_take]
      exact min_le_left _ _
  · intro s2
    unfold QuoteMarket.resolveRounds
    by_cases hev : events = []
    · rw [if_pos hev]
    · rw [if_neg hev]
      by_cases hres : QuoteMarket.resolvedBatch events t s2.openPositions = []
      · simp only [if_pos hres]
        exact le_refl _
      · simp only [if_neg hres]
        exact List.length_filter_le _ _
  · rw [hopen]
    intro hq
    rcases List.mem_cons.mp hq with h1 | h2
    · exact hqnew (by rw [h1])
    · exact hqid (List.mem_map.mpr ⟨q, h2, rfl⟩)
  · unfold QuoteMarket.placePosition
    rw [hdec]
  · unfold QuoteMarket.placePosition
    rw [hdec]

/-- Witness for C10: 120 open positions, a successful placement; the oldest
position q is gone from the open set and nothing was settled. -/
theorem c10_open_position_cap_witness :
    (⟨"q", "X", "old", Direction.up, 50, 0, 5, 5, 1 / 2, 1⟩ :
        QuoteMarket.OpenPosition) ∉
      (QuoteMarket.placePosition QuoteMarket.SHORTS_MARKETS FeedStatus.live
        (fun _ => some ⟨"cur", "BTC-30s", 0, 30000, some 100⟩) 1000 "BTC-30s"
        Direction.up (1 / 2) "s" "a"
        ⟨10000,
          List.replicate 119
              ⟨"b", "X", "old", Direction.up, 50, 0, 5, 5, 1 / 2, 1⟩ ++
            [⟨"q", "X", "old", Direction.up, 50, 0, 5, 5, 1 / 2, 1⟩],
          [], [], []⟩).openPositions ∧
    (QuoteMarket.placePosition QuoteMarket.SHORTS_MARKETS FeedStatus.live
        (fun _ => some ⟨"cur", "BTC-30s", 0, 30000, some 100⟩) 1000 "BTC-30s"
        Direction.up (1 / 2) "s" "a"
        ⟨10000,
          List.replicate 119
              ⟨"b", "X", "old", Direction.up, 50, 0, 5, 5, 1 / 2, 1⟩ ++
            [⟨"q", "X", "old", Direction.up, 50, 0, 5, 5, 1 / 2, 1⟩],
          [], [], []⟩).settledPositions = [] := by
  have hcount : QuoteMarket.countCurrentRoundPositions
      (List.replicate 119
          ⟨"b", "X", "old", Direction.up, 50, 0, 5, 5, 1 / 2, 1⟩ ++
        [⟨"q", "X", "old", Direction.up, 50, 0, 5, 5, 1 / 2, 1⟩])
      (fun _ => some ⟨"cur", "BTC-30s", 0, 30000, some 100⟩) "BTC-30s" = 0 := by
    unfold QuoteMarket.countCurrentRoundPositions
    rw [List.length_eq_zero, List.filter_eq_nil_iff]
    intro a ha
    rcases List.mem_append.mp ha with h1 | h2
    · rw [List.eq_of_mem_replicate h1]
      simp
    · rw [List.mem_singleton.mp h2]
      simp
  have hdec : QuoteMarket.placeDecision QuoteMarket.SHORTS_MARKETS
      FeedStatus.live
      (fun _ => some ⟨"cur", "BTC-30s", 0, 30000, some 100⟩) 1000 "BTC-30s"
      Direction.up (1 / 2) "s"
      ⟨10000,
        List.replicate 119
            ⟨"b", "X", "old", Direction.up, 50, 0, 5, 5, 1 / 2, 1⟩ ++
          [⟨"q", "X", "old", Direction.up, 50, 0, 5, 5, 1 / 2, 1⟩],
        [], [], []⟩ =
      some ⟨"cur" ++ "-" ++ toString (1000 : ℚ) ++ "-" ++ "s", "BTC-30s",
        "cur", Direction.up, 50, 1000, 30000, 100, 1 / 2, 1⟩ := by
    unfold QuoteMarket.placeDecision
    norm_num [hcount, DEFAULT_BET_AMOUNT, TOKEN_TO_USDC_RATE, roundToFour,
      jsRound]
  have h := c10_open_position_cap QuoteMarket.SHORTS_MARKETS FeedStatus.live
      (fun _ => some ⟨"cur", "BTC-30s", 0, 30000, some 100⟩) 1000 "BTC-30s"
      Direction.up (1 / 2) "s" "a"
      ⟨10000,
        List.replicate 119
            ⟨"b", "X", "old", Direction.up, 50, 0, 5, 5, 1 / 2, 1⟩ ++
          [⟨"q", "X", "old", Direction.up, 50, 0, 5, 5, 1 / 2, 1⟩],
        [], [], []⟩ [] 0
      ⟨"cur" ++ "-" ++ toString (1000 : ℚ) ++ "-" ++ "s", "BTC-30s", "cur",
        Direction.up, 50, 1000, 30000, 100, 1 / 2, 1⟩
      (List.replicate 119 ⟨"b", "X", "old", Direction.up, 50, 0, 5, 5, 1 / 2, 1⟩)
      ⟨"q", "X", "old", Direction.up, 50, 0, 5, 5, 1 / 2, 1⟩
      hdec rfl (by simp) (by simp) (by decide)
  exact ⟨h.2.2.2.1, h.2.2.2.2.1⟩

/-! ## Claim C3: conservation of balance over a run. -/

theorem qm_resolvedBatch_nil_events (t : ℚ)
    (positions : List QuoteMarket.OpenPosition) :
    QuoteMarket.resolvedBatch [] t positions = [] := by
  rw [quoteMarket_resolvedBatch_eq_nil_iff]
  intro p _
  rfl

theorem qm_resolveRounds_balance (events : List SettlementEvent) (t : ℚ)
    (st : QuoteMarket.EngineState) :
    (QuoteMarket.resolveRounds events t st).balance =
      st.balance +
        ((QuoteMarket.resolvedBatch events t st.openPositions).map
          (·.payout)).sum := by
  unfold QuoteMarket.resolveRounds
  by_cases hev : events = []
  · rw [if_pos hev, hev, qm_resolvedBatch_nil_events]
    simp
  · rw [if_neg hev]
    by_cases hres : QuoteMarket.resolvedBatch events t st.openPositions = []
    · simp only [if_pos hres, hres]
      simp
    · simp only [if_neg hres]

theorem qm_open_split (events : List SettlementEvent) (t : ℚ)
    (positions : List QuoteMarket.OpenPosition) :
    positions.Perm (QuoteMarket.stillOpenAfter events positions ++
      (QuoteMarket.resolvedBatch events t positions).map (·.position)) := by
  induction positions with
  | nil => exact List.Perm.refl _
  | cons p rest ih =>
    rcases hsp : settlePriceFor events p.roundId with _ | sp
    · have hstill : QuoteMarket.stillOpenAfter events (p :: rest) =
          p :: QuoteMarket.stillOpenAfter events rest := by
        unfold QuoteMarket.stillOpenAfter
        rw [List.filter_cons]
        simp [hsp]
      have hbatch : QuoteMarket.resolvedBatch events t (p :: rest) =
          QuoteMarket.resolvedBatch events t rest := by
        unfold QuoteMarket.resolvedBatch
        rw [List.filterMap_cons]
        simp [hsp]
      rw [hstill, hbatch, List.cons_append]
      exact ih.cons p
    · have hstill : QuoteMarket.stillOpenAfter events (p :: rest) =
          QuoteMarket.stillOpenAfter events rest := by
        unfold QuoteMarket.stillOpenAfter
        rw [List.filter_cons]
        simp [hsp]
      have hbatch : QuoteMarket.resolvedBatch events t (p :: rest) =
          QuoteMarket.settleOne sp t p :: QuoteMarket.resolvedBatch events t rest := by
        unfold QuoteMarket.resolvedBatch
        rw [List.filterMap_cons]
        simp [hsp]
      rw [hstill, hbatch]
      have hpos : (QuoteMarket.settleOne sp t p).position = p := rfl
      rw [List.map_cons, hpos]
      exact (ih.cons p).trans List.perm_middle.symm

theorem qm_resolveRounds_open_perm (events : List SettlementEvent) (t : ℚ)
    (st : QuoteMarket.EngineState) :
    st.openPositions.Perm
      ((QuoteMarket.resolveRounds events t st).openPositions ++
        (QuoteMarket.resolvedBatch events t st.openPositions).map
          (·.position)) := by
  unfold QuoteMarket.resolveRounds
  by_cases hev : events = []
  · rw [if_pos hev, hev, qm_resolvedBatch_nil_events]
    simp
  · rw [if_neg hev]
    by_cases hres : QuoteMarket.resolvedBatch events t st.openPositions = []
    · simp only [if_pos hres, hres]
      simp
    · simp only [if_neg hres]
      exact qm_open_split events t st.openPositions

theorem qm_placePosition_balance (markets : List QuoteMarket.Market)
    (f : FeedStatus) (r : String → Option QuoteMarket.MarketRound) (n : ℚ)
    (k : String) (d : Direction) (qt : ℚ) (suffix actId : String)
    (s : QuoteMarket.EngineState) :
    (QuoteMarket.placePosition markets f r n k d qt suffix actId s).balance =
      s.balance -
        (((QuoteMarket.placeDecision markets f r n k d qt suffix s).toList.map
          (·.amount)).sum) := by
  unfold QuoteMarket.placePosition
  rcases hd : QuoteMarket.placeDecision markets f r n k d qt suffix s with _ | pos
  · simp
  · simp

theorem qm_placePosition_open (markets : List QuoteMarket.Market)
    (f : FeedStatus) (r : String → Option QuoteMarket.MarketRound) (n : ℚ)
    (k : String) (d : Direction) (qt : ℚ) (suffix actId : String)
    (s : QuoteMarket.EngineState)
    (hcap : (QuoteMarket.placeDecision markets f r n k d qt suffix s).isNone ∨
      s.openPositions.length < 120) :
    (QuoteMarket.placePosition markets f r n k d qt suffix actId
        s).openPositions =
      (QuoteMarket.placeDecision markets f r n k d qt suffix s).toList ++
        s.openPositions := by
  unfold QuoteMarket.placePosition
  rcases hd : QuoteMarket.placeDecision markets f r n k d qt suffix s with _ | pos
  · simp
  · rw [hd] at hcap
    rcases hcap with h | h
    · cases h
    · show (pos :: s.openPositions).take 120 = [pos] ++ s.openPositions
      rw [List.singleton_append]
      apply List.take_of_length_le
      simp only [List.length_cons]
      omega

theorem qm_runOps_balance :
    ∀ (ops : List QuoteMarket.EngineOp) (s : QuoteMarket.EngineState),
      (QuoteMarket.runOps ops s).balance =
        s.balance + ((QuoteMarket.resolvedOf ops s).map (·.payout)).sum -
          ((QuoteMarket.placedOf ops s).map (·.amount)).sum
  | [], s => by
    simp [QuoteMarket.runOps, QuoteMarket.resolvedOf, QuoteMarket.placedOf]
  | op :: rest, s => by
    have ih := qm_runOps_balance rest (QuoteMarket.applyOp op s)
    rcases op with ⟨f, r, n, k, d, qt, suffix, actId⟩ | ⟨events, t⟩
    · simp only [QuoteMarket.runOps, QuoteMarket.resolvedOf,
        QuoteMarket.placedOf, QuoteMarket.applyOp, List.nil_append,
        List.map_append, List.sum_append] at ih ⊢
      rw [ih, qm_placePosition_balance]
      ring
    · simp only [QuoteMarket.runOps, QuoteMarket.resolvedOf,
        QuoteMarket.placedOf, QuoteMarket.applyOp, List.nil_append,
        List.map_append, List.sum_append] at ih ⊢
      rw [ih, qm_resolveRounds_balance]
      ring

theorem qm_runOps_perm :
    ∀ (ops : List QuoteMarket.EngineOp) (s : QuoteMarket.EngineState),
      QuoteMarket.capSafe ops s = true →
      (QuoteMarket.placedOf ops s ++ s.openPositions).Perm
        ((QuoteMarket.runOps ops s).openPositions ++
          (QuoteMarket.resolvedOf ops s).map (·.position))
  | [], s, _ => by
    simp [QuoteMarket.placedOf, QuoteMarket.runOps, QuoteMarket.resolvedOf]
  | op :: rest, s, hcap => by
    rcases op with ⟨f, r, n, k, d, qt, suffix, actId⟩ | ⟨events, t⟩
    · simp only [QuoteMarket.capSafe, Bool.and_eq_true, Bool.or_eq_true,
        decide_eq_true_eq] at hcap
      have hcond : (QuoteMarket.placeDecision QuoteMarket.SHORTS_MARKETS f r n
          k d qt suffix s).isNone ∨ s.openPositions.length < 120 := hcap.1
      have ih := qm_runOps_perm rest
        (QuoteMarket.applyOp (QuoteMarket.EngineOp.place f r n k d qt suffix
          actId) s) hcap.2
      have hopen := qm_placePosition_open QuoteMarket.SHORTS_MARKETS f r n k d
        qt suffix actId s hcond
      simp only [QuoteMarket.runOps, QuoteMarket.resolvedOf,
        QuoteMarket.placedOf, QuoteMarket.applyOp, List.nil_append] at ih ⊢
      refine List.Perm.trans ?_ ih
      rw [hopen, ← List.append_assoc]
      exact List.perm_append_comm.append_right _
    · simp only [QuoteMarket.capSafe, Bool.true_and] at hcap
      have ih := qm_runOps_perm rest
        (QuoteMarket.applyOp (QuoteMarket.EngineOp.settle events t) s) hcap
      have hsplit := qm_resolveRounds_open_perm events t s
      simp only [QuoteMarket.runOps, QuoteMarket.resolvedOf,
        QuoteMarket.placedOf, QuoteMarket.applyOp, List.nil_append,
        List.map_append] at ih ⊢
      have h1 := List.Perm.append_left
        (QuoteMarket.placedOf rest
          (QuoteMarket.resolveRounds events t s)) hsplit
      rw [← List.append_assoc] at h1
      have h2 := ih.append_right
        ((QuoteMarket.resolvedBatch events t s.openPositions).map (·.position))
      have h3 := h1.trans h2
      rw [List.append_assoc] at h3
      exact h3.trans (List.Perm.append_left _ List.perm_append_comm)

/-- C3: over any run of placements and settlements starting and ending with
no open positions and never hitting the 120 entry cap, the balance changes
by exactly the sum of all computed payouts minus the sum of all debited
stakes; the settled positions are a permutation of the placed ones, so the
net change is the sum over positions of payout minus stake; and every
settlement batch is credited to the balance as one single update equal to
the sum of the payouts of that batch. -/
theorem c3_conservation (ops : List QuoteMarket.EngineOp)
    (s : QuoteMarket.EngineState)
    (h0 : s.openPositions = [])
    (hfin : (QuoteMarket.runOps ops s).openPositions = [])
    (hcap : QuoteMarket.capSafe ops s = true) :
    (QuoteMarket.runOps ops s).balance =
      s.balance + ((QuoteMarket.resolvedOf ops s).map (·.payout)).sum -
        ((QuoteMarket.placedOf ops s).map (·.amount)).sum ∧
    (QuoteMarket.placedOf ops s).Perm
      ((QuoteMarket.resolvedOf ops s).map (·.position)) ∧
    ∀ (events : List SettlementEvent) (t : ℚ) (st : QuoteMarket.EngineState),
      (QuoteMarket.resolveRounds events t st).balance =
        st.balance +
          ((QuoteMarket.resolvedBatch events t st.openPositions).map
            (·.payout)).sum := by
  refine ⟨qm_runOps_balance ops s, ?_, qm_resolveRounds_balance⟩
  have h := qm_runOps_perm ops s hcap
  rw [h0, hfin] at h
  simpa using h

/-- Witness for C3: one successful placement of stake 50 followed by the
settlement of its round; the placed positions are exactly the settled ones
and the balance obeys the conservation equation. -/
theorem c3_conservation_witness :
    (QuoteMarket.runOps
        [QuoteMarket.EngineOp.place FeedStatus.live
            (fun _ => some ⟨"cur", "BTC-30s", 0, 30000, some 100⟩) 1000
            "BTC-30s" Direction.up (1 / 2) "s" "a",
          QuoteMarket.EngineOp.settle [⟨"cur", 110⟩] 40000]
        ⟨10000, [], [], [], []⟩).balance =
      (10000 : ℚ) +
        ((QuoteMarket.resolvedOf
            [QuoteMarket.EngineOp.place FeedStatus.live
                (fun _ => some ⟨"cur", "BTC-30s", 0, 30000, some 100⟩) 1000
                "BTC-30s" Direction.up (1 / 2) "s" "a",
              QuoteMarket.EngineOp.settle [⟨"cur", 110⟩] 40000]
            ⟨10000, [], [], [], []⟩).map (·.payout)).sum -
        ((QuoteMarket.placedOf
            [QuoteMarket.EngineOp.place FeedStatus.live
                (fun _ => some ⟨"cur", "BTC-30s", 0, 30000, some 100⟩) 1000
                "BTC-30s" Direction.up (1 / 2) "s" "a",
              QuoteMarket.EngineOp.settle [⟨"cur", 110⟩] 40000]
            ⟨10000, [], [], [], []⟩).map (·.amount)).sum ∧
    (QuoteMarket.placedOf
        [QuoteMarket.EngineOp.place FeedStatus.live
            (fun _ => some ⟨"cur", "BTC-30s", 0, 30000, some 100⟩) 1000
            "BTC-30s" Direction.up (1 / 2) "s" "a",
          QuoteMarket.EngineOp.settle [⟨"cur", 110⟩] 40000]
        ⟨10000, [], [], [], []⟩).Perm
      ((QuoteMarket.resolvedOf
          [QuoteMarket.EngineOp.place FeedStatus.live
              (fun _ => some ⟨"cur", "BTC-30s", 0, 30000, some 100⟩) 1000
              "BTC-30s" Direction.up (1 / 2) "s" "a",
            QuoteMarket.EngineOp.settle [⟨"cur", 110⟩] 40000]
          ⟨10000, [], [], [], []⟩).map (·.position)) := by
  have hdec : QuoteMarket.placeDecision QuoteMarket.SHORTS_MARKETS
      FeedStatus.live (fun _ => some ⟨"cur", "BTC-30s", 0, 30000, some 100⟩)
      1000 "BTC-30s" Direction.up (1 / 2) "s" ⟨10000, [], [], [], []⟩ =
      some ⟨"cur" ++ "-" ++ toString (1000 : ℚ) ++ "-" ++ "s", "BTC-30s",
        "cur", Direction.up, 50, 1000, 30000, 100, 1 / 2, 1⟩ := by
    unfold QuoteMarket.placeDecision
    norm_num [QuoteMarket.countCurrentRoundPositions, DEFAULT_BET_AMOUNT,
      TOKEN_TO_USDC_RATE, roundToFour, jsRound]
  have hs1 : (QuoteMarket.placePosition QuoteMarket.SHORTS_MARKETS
      FeedStatus.live (fun _ => some ⟨"cur", "BTC-30s", 0, 30000, some 100⟩)
      1000 "BTC-30s" Direction.up (1 / 2) "s" "a"
      ⟨10000, [], [], [], []⟩).openPositions =
      [⟨"cur" ++ "-" ++ toString (1000 : ℚ) ++ "-" ++ "s", "BTC-30s", "cur",
        Direction.up, 50, 1000, 30000, 100, 1 / 2, 1⟩] := by
    unfold QuoteMarket.placePosition
    rw [hdec]
    show (_ :: ([] : List QuoteMarket.OpenPosition)).take 120 = _
    rw [List.take_of_length_le (by simp)]
  have hfin : (QuoteMarket.runOps
      [QuoteMarket.EngineOp.place FeedStatus.live
          (fun _ => some ⟨"cur", "BTC-30s", 0, 30000, some 100⟩) 1000
          "BTC-30s" Direction.up (1 / 2) "s" "a",
        QuoteMarket.EngineOp.settle [⟨"cur", 110⟩] 40000]
      ⟨10000, [], [], [], []⟩).openPositions = [] := by
    simp only [QuoteMarket.runOps, QuoteMarket.applyOp]
    unfold QuoteMarket.resolveRounds
    rw [if_neg (by simp : ¬([⟨"cur", 110⟩] : List SettlementEvent) = [])]
    have hbatch : ¬(QuoteMarket.resolvedBatch [⟨"cur", 110⟩] 40000
        (QuoteMarket.placePosition QuoteMarket.SHORTS_MARKETS FeedStatus.live
          (fun _ => some ⟨"cur", "BTC-30s", 0, 30000, some 100⟩) 1000
          "BTC-30s" Direction.up (1 / 2) "s" "a"
          ⟨10000, [], [], [], []⟩).openPositions = []) := by
      rw [hs1]
      simp [QuoteMarket.resolvedBatch, settlePriceFor]
    simp only [if_neg hbatch]
    show QuoteMarket.stillOpenAfter _ _ = []
    unfold QuoteMarket.stillOpenAfter
    rw [hs1]
    simp [settlePriceFor]
  have hcap : QuoteMarket.capSafe
      [QuoteMarket.EngineOp.place FeedStatus.live
          (fun _ => some ⟨"cur", "BTC-30s", 0, 30000, some 100⟩) 1000
          "BTC-30s" Direction.up (1 / 2) "s" "a",
        QuoteMarket.EngineOp.settle [⟨"cur", 110⟩] 40000]
      ⟨10000, [], [], [], []⟩ = true := by
    simp [QuoteMarket.capSafe, QuoteMarket.applyOp]
  have h := c3_conservation
      [QuoteMarket.EngineOp.place FeedStatus.live
          (fun _ => some ⟨"cur", "BTC-30s", 0, 30000, some 100⟩) 1000
          "BTC-30s" Direction.up (1 / 2) "s" "a",
        QuoteMarket.EngineOp.settle [⟨"cur", 110⟩] 40000]
      ⟨10000, [], [], [], []⟩ rfl hfin hcap
  exact ⟨h.1, h.2.1⟩
